import Mathlib

/-!
# Verification of the AquaEngineering/os runtime (TLSF allocator, heap facade, timers)

Shallow embedding of the C sources in `src/OS/` (os_mem.h with its inlined
TLSF implementation, os_mem.c, os_ll.h with the inlined os_timer.c,
os_hal_tick.c) and proofs about the claims C1..C10.

Modelling conventions:
* The target is the 32-bit configuration the sources pin down
  (`sizeof(int)*CHAR_BIT == 32` static assert; `TLSF_MAX_POOL_SIZE = OS_MEM_SIZE
  = 1024`).  Machine words are `Nat` values kept below `2^32` by the
  operations we evaluate; masks such as `~0U << n` are written as
  `2^32 - 2^n`.
* Pointers are byte addresses (`Nat`); the C `NULL` is address `0`.
* The TLSF heap memory is word granular: `Mem` is an association list of
  word writes (newest first); `mread` returns the most recent write to a
  4-aligned byte address and 0 for untouched addresses (the static buffer is
  zero-initialised).  Every access the translated code performs is a whole
  32-bit load or store at a 4-aligned address (`block_header_t` fields, the
  control structure's words), so word granularity is faithful.
* The `os_memcpy` model (claim C9) uses a separate byte-granular memory,
  because that routine really does mix byte and word accesses.
-/

/-! ## TLSF constants (os_mem.h, `enum tlsf_public` / `enum tlsf_private`) -/

/-- `SL_INDEX_COUNT_LOG2 = 5` (os_mem.h line 229). -/
def SL_INDEX_COUNT_LOG2 : Nat := 5

/-- `ALIGN_SIZE_LOG2 = 2`. -/
def ALIGN_SIZE_LOG2 : Nat := 2

/-- `ALIGN_SIZE = 1 << ALIGN_SIZE_LOG2 = 4`. -/
def ALIGN_SIZE : Nat := 1 <<< ALIGN_SIZE_LOG2

/-- `FL_INDEX_MAX = TLSF_LOG2_CEIL(TLSF_MAX_POOL_SIZE)` with
`TLSF_MAX_POOL_SIZE = OS_MEM_SIZE = 1024`; `1024` is a power of two, so the
macro evaluates to `TLSF_FLS(1024) - 1 = 10`. -/
def FL_INDEX_MAX : Nat := 10

/-- `SL_INDEX_COUNT = 1 << SL_INDEX_COUNT_LOG2 = 32`. -/
def SL_INDEX_COUNT : Nat := 1 <<< SL_INDEX_COUNT_LOG2

/-- `FL_INDEX_SHIFT = SL_INDEX_COUNT_LOG2 + ALIGN_SIZE_LOG2 = 7`. -/
def FL_INDEX_SHIFT : Nat := SL_INDEX_COUNT_LOG2 + ALIGN_SIZE_LOG2

/-- `FL_INDEX_COUNT = FL_INDEX_MAX - FL_INDEX_SHIFT + 1 = 4`. -/
def FL_INDEX_COUNT : Nat := FL_INDEX_MAX - FL_INDEX_SHIFT + 1

/-- `SMALL_BLOCK_SIZE = 1 << FL_INDEX_SHIFT = 128`. -/
def SMALL_BLOCK_SIZE : Nat := 1 <<< FL_INDEX_SHIFT

/-- `block_header_overhead = sizeof(size_t) = 4` (32-bit platform). -/
def block_header_overhead : Nat := 4

/-- `block_start_offset = offsetof(block_header_t, size) + sizeof(size_t) = 8`:
a 32-bit `prev_phys_block` pointer followed by the 32-bit size word. -/
def block_start_offset : Nat := 8

/-- `block_size_min = sizeof(block_header_t) - sizeof(block_header_t*) =
16 - 4 = 12` on the 32-bit platform. -/
def block_size_min : Nat := 12

/-- `block_size_max = 1 << FL_INDEX_MAX = 1024`. -/
def block_size_max : Nat := 1 <<< FL_INDEX_MAX

/-- `sizeof(block_header_t) = 16` (four 32-bit fields). -/
def block_header_size : Nat := 16

/-! ## Bit scanning primitives (os_mem.h lines 206-215) -/

/-- Fuel-based least-significant-set-bit scan; with 32 units of fuel it
covers every 32-bit word (see `tlsf_ffs`). -/
def ffs_aux : Nat → Nat → Nat
  | 0, _ => 0
  | fuel + 1, w => if w % 2 = 1 then 0 else ffs_aux fuel (w / 2) + 1

/-- `tlsf_ffs(word) = __builtin_ffs(word) - 1`: index of the least
significant set bit of a 32-bit word.  The C function returns `-1` on `0`;
every call site in the translated code guards against the zero word (and our
well-formedness hypotheses re-establish that), so the value at `0` is junk. -/
def tlsf_ffs (w : Nat) : Nat := ffs_aux 32 w

/-- Fuel-based binary logarithm; with 32 units of fuel it computes
`Nat.log2` of every 32-bit word (`fls_aux_eq_log2`). -/
def fls_aux : Nat → Nat → Nat
  | 0, _ => 0
  | fuel + 1, w => if w ≥ 2 then fls_aux fuel (w / 2) + 1 else 0

/-- `tlsf_fls(word) = (word ? 32 - __builtin_clz(word) : 0) - 1`: for a
non-zero 32-bit word this is `floor(log2 word)`.  The C function returns
`-1` on `0`; both callers (`mapping_insert`, `mapping_search`) only reach it
with `word ≥ SMALL_BLOCK_SIZE > 0`. -/
def tlsf_fls (w : Nat) : Nat := fls_aux 32 w

theorem fls_aux_eq_log2 : ∀ fuel w, w < 2 ^ fuel → fls_aux fuel w = Nat.log2 w := by
  intro fuel
  induction fuel with
  | zero => intro w hw; interval_cases w; simp [fls_aux, Nat.log2]
  | succ n ih =>
    intro w hw
    rw [fls_aux, Nat.log2]
    by_cases h : w ≥ 2
    · rw [if_pos h, if_pos h, ih (w / 2) (by omega)]
    · rw [if_neg h, if_neg h]

theorem tlsf_fls_eq_log2 (w : Nat) (hw : w < 2 ^ 32) : tlsf_fls w = Nat.log2 w :=
  fls_aux_eq_log2 32 w hw

/-! ## Alignment helpers (os_mem.h lines 460-475)

For a power-of-two `align` and arguments that do not overflow `size_t`
(all uses here stay far below `2^32`), the C bit tricks
`(x + align - 1) & ~(align - 1)` and `x - (x & (align - 1))` compute
rounding up respectively down to a multiple of `align`. -/

/-- `align_up(x, align)` -/
def align_up (x align : Nat) : Nat := ((x + align - 1) / align) * align

/-- `align_down(x, align)` -/
def align_down (x align : Nat) : Nat := x - x % align

/-- `align_ptr(ptr, align)`: same computation as `align_up`, applied to a
pointer value. -/
def align_ptr (ptr align : Nat) : Nat := align_up ptr align

/-- `adjust_request_size(size, align)` (os_mem.h lines 481-493). -/
def adjust_request_size (size align : Nat) : Nat :=
  if size ≠ 0 then
    let aligned := align_up size align
    if aligned < block_size_max then max aligned block_size_min else 0
  else 0

/-! ## The two-level mapping (os_mem.h lines 500-525) -/

/-- `mapping_insert(size, &fl, &sl)` (os_mem.h lines 500-515), returning the
pair `(fl, sl)`. -/
def mapping_insert (size : Nat) : Nat × Nat :=
  if size < SMALL_BLOCK_SIZE then
    (0, size / (SMALL_BLOCK_SIZE / SL_INDEX_COUNT))
  else
    let fl := tlsf_fls size
    let sl := (size >>> (fl - SL_INDEX_COUNT_LOG2)) ^^^ (1 <<< SL_INDEX_COUNT_LOG2)
    (fl - (FL_INDEX_SHIFT - 1), sl)

/-- `mapping_search(size, &fl, &sl)` (os_mem.h lines 518-525): rounds the
size up within its class before mapping. -/
def mapping_search (size : Nat) : Nat × Nat :=
  if size ≥ SMALL_BLOCK_SIZE then
    mapping_insert (size + ((1 <<< (tlsf_fls size - SL_INDEX_COUNT_LOG2)) - 1))
  else mapping_insert size

/-- The mapping formula exactly as claim C7 states it: `fl = 0`,
`sl = s / (SMALL_BLOCK_SIZE / SL_INDEX_COUNT)` for small sizes, otherwise
`fl = floor(log2 s) - (FL_INDEX_SHIFT - 1)` and
`sl = (s >> (fl + FL_INDEX_SHIFT - 1 - SL_INDEX_COUNT_LOG2)) XOR SL_INDEX_COUNT`
(with the final `fl` in the shift amount). -/
def claimC7_mapping (s : Nat) : Nat × Nat :=
  if s < SMALL_BLOCK_SIZE then
    (0, s / (SMALL_BLOCK_SIZE / SL_INDEX_COUNT))
  else
    let fl := Nat.log2 s - (FL_INDEX_SHIFT - 1)
    (fl, (s >>> (fl + FL_INDEX_SHIFT - 1 - SL_INDEX_COUNT_LOG2)) ^^^ SL_INDEX_COUNT)

/-- C7: for every size in `[block_size_min, block_size_max)`, `mapping_insert`
computes exactly the claimed formula, and the sizing constants have the
claimed values `ALIGN_SIZE_LOG2 = 2`, `SL_INDEX_COUNT_LOG2 = 5`,
`FL_INDEX_SHIFT = 7`. -/
theorem C7_mapping_insert_formula :
    (∀ s : Nat, block_size_min ≤ s → s < block_size_max →
      mapping_insert s = claimC7_mapping s) ∧
    ALIGN_SIZE_LOG2 = 2 ∧ SL_INDEX_COUNT_LOG2 = 5 ∧ FL_INDEX_SHIFT = 7 := by
  refine ⟨?_, rfl, rfl, rfl⟩
  intro s h1 h2
  have hs32 : s < 2 ^ 32 := lt_trans h2 (by decide)
  rw [mapping_insert, claimC7_mapping]
  by_cases h : s < SMALL_BLOCK_SIZE
  · rw [if_pos h, if_pos h]
  · rw [if_neg h, if_neg h]
    have hfls : tlsf_fls s = Nat.log2 s := tlsf_fls_eq_log2 s hs32
    have h128 : (128 : Nat) ≤ s := by
      have : SMALL_BLOCK_SIZE = 128 := by rfl
      omega
    have hlog : 7 ≤ Nat.log2 s := by
      rw [Nat.le_log2 (by omega)]; exact h128
    have hshift : Nat.log2 s - (FL_INDEX_SHIFT - 1) + FL_INDEX_SHIFT - 1 -
        SL_INDEX_COUNT_LOG2 = Nat.log2 s - SL_INDEX_COUNT_LOG2 := by
      have e1 : FL_INDEX_SHIFT = 7 := by rfl
      have e2 : SL_INDEX_COUNT_LOG2 = 5 := by rfl
      omega
    rw [hfls]
    show (Nat.log2 s - (FL_INDEX_SHIFT - 1),
        s >>> (Nat.log2 s - SL_INDEX_COUNT_LOG2) ^^^ 1 <<< SL_INDEX_COUNT_LOG2) =
      (Nat.log2 s - (FL_INDEX_SHIFT - 1),
        s >>> (Nat.log2 s - (FL_INDEX_SHIFT - 1) + FL_INDEX_SHIFT - 1 -
          SL_INDEX_COUNT_LOG2) ^^^ SL_INDEX_COUNT)
    rw [hshift]
    rfl

/-! ## Word-granular memory

`Mem` maps a (4-aligned) byte address to the 32-bit word stored there.
`mwrite` is a point update.  All loads and stores the TLSF code performs are
whole 32-bit words (header fields and control-structure words), so this
granularity is exact for the translated code. -/

def Mem : Type := List (Nat × Nat)

/-- Read the word at address `a`: the most recent write wins; an address that
was never written reads as `0` (the C work buffer is a zero-initialized
static array, and the all-zero idle state is the natural default for the
remaining address space of the model). -/
def mread (m : Mem) (a : Nat) : Nat :=
  match m with
  | [] => 0
  | (x, v) :: rest => if a = x then v else mread rest a

/-- Store word `v` at address `a`. -/
def mwrite (m : Mem) (a v : Nat) : Mem := (a, v) :: m

theorem mread_mwrite_same (m : Mem) (a v : Nat) : mread (mwrite m a v) a = v := by
  simp [mread, mwrite]

theorem mread_mwrite_ne (m : Mem) (a v x : Nat) (h : x ≠ a) :
    mread (mwrite m a v) x = mread m x := by
  simp [mread, mwrite, h]

/-! ## Block header accessors (os_mem.h lines 298-458)

A block header at byte address `b` occupies the words
`b` (`prev_phys_block`), `b+4` (`size`, with the two flag bits),
`b+8` (`next_free`), `b+12` (`prev_free`).
`block_header_free_bit = 1`, `block_header_prev_free_bit = 2`. -/

/-- `block_size(block) = block->size & ~(free_bit | prev_free_bit)`:
clearing the two low bits of a 32-bit word is `w - w % 4`. -/
def block_size (m : Mem) (b : Nat) : Nat := mread m (b + 4) - mread m (b + 4) % 4

/-- `block_is_last(block) = (block_size(block) == 0)` -/
def block_is_last (m : Mem) (b : Nat) : Bool := block_size m b = 0

/-- `block_is_free(block) = size & free_bit` -/
def block_is_free (m : Mem) (b : Nat) : Bool := mread m (b + 4) % 2 = 1

/-- `block_is_prev_free(block) = size & prev_free_bit` -/
def block_is_prev_free (m : Mem) (b : Nat) : Bool := mread m (b + 4) / 2 % 2 = 1

/-- `block_set_free(block): size |= free_bit` -/
def block_set_free (m : Mem) (b : Nat) : Mem := mwrite m (b + 4) (mread m (b + 4) ||| 1)

/-- `block_set_used(block): size &= ~free_bit`: clearing bit 0 is `w - w % 2`. -/
def block_set_used (m : Mem) (b : Nat) : Mem :=
  mwrite m (b + 4) (mread m (b + 4) - mread m (b + 4) % 2)

/-- `block_set_prev_free(block): size |= prev_free_bit` -/
def block_set_prev_free (m : Mem) (b : Nat) : Mem :=
  mwrite m (b + 4) (mread m (b + 4) ||| 2)

/-- `block_set_prev_used(block): size &= ~prev_free_bit`: clearing bit 1. -/
def block_set_prev_used (m : Mem) (b : Nat) : Mem :=
  mwrite m (b + 4) (mread m (b + 4) - 2 * (mread m (b + 4) / 2 % 2))

/-- `block_set_size(block, size): block->size = size | (oldsize & (free|prev_free))` -/
def block_set_size (m : Mem) (b size : Nat) : Mem :=
  mwrite m (b + 4) (size ||| (mread m (b + 4) % 4))

/-- `block_from_ptr(ptr)`: payload pointer to header address. -/
def block_from_ptr (p : Nat) : Nat := p - block_start_offset

/-- `block_to_ptr(block)`: header address to payload pointer. -/
def block_to_ptr (b : Nat) : Nat := b + block_start_offset

/-- `block_prev(block) = block->prev_phys_block` -/
def block_prev (m : Mem) (b : Nat) : Nat := mread m b

/-- `block_next(block) = offset_to_block(block_to_ptr(block), block_size(block)
- block_header_overhead)`, i.e. `b + 8 + block_size - 4`.  Written as
`b + 4 + block_size`, which agrees with the C `size_t` wraparound even for
stored sizes below 4 (the uninitialized sizes `block_split` can leave). -/
def block_next (m : Mem) (b : Nat) : Nat := b + 4 + block_size m b

/-- `block_link_next(block)`: store `block` into the next block's
`prev_phys_block` word and return that next block. -/
def block_link_next (m : Mem) (b : Nat) : Mem × Nat :=
  let next := block_next m b
  (mwrite m next b, next)

/-- `block_mark_as_free(block)` (os_mem.h lines 445-451). -/
def block_mark_as_free (m : Mem) (b : Nat) : Mem :=
  let r := block_link_next m b
  let m1 := block_set_prev_free r.1 r.2
  block_set_free m1 b

/-- `block_mark_as_used(block)` (os_mem.h lines 453-458). -/
def block_mark_as_used (m : Mem) (b : Nat) : Mem :=
  let next := block_next m b
  let m1 := block_set_prev_used m next
  block_set_used m1 b

/-! ## The control structure (os_mem.h lines 340-350)

`control_t` lives at the `tlsf` base address `c`:
`block_null` occupies `c .. c+12` (its `next_free` / `prev_free` words are at
`c+8` / `c+12`), `fl_bitmap` is at `c+16`, `sl_bitmap[fl]` at `c+20+4*fl`,
and the row-major `blocks[fl][sl]` array starts at `c+36`.
`sizeof(control_t) = 16 + 4 + 4*FL_INDEX_COUNT + 4*FL_INDEX_COUNT*SL_INDEX_COUNT
= 548` bytes. -/

def blockNullAddr (c : Nat) : Nat := c

def flBitmapAddr (c : Nat) : Nat := c + 16

def slBitmapAddr (c fl : Nat) : Nat := c + 20 + 4 * fl

def blocksAddr (c fl sl : Nat) : Nat := c + 36 + 4 * (SL_INDEX_COUNT * fl + sl)

/-- `os_tlsf_size() = sizeof(control_t)` -/
def os_tlsf_size : Nat := 548

/-- The C mask `~0U << n` (for `n < 32`). -/
def maskGE (n : Nat) : Nat := 2 ^ 32 - 2 ^ n

/-- The C mask `~(1U << n)` (for `n < 32`). -/
def maskNot (n : Nat) : Nat := 2 ^ 32 - 1 - 2 ^ n

/-- `remove_free_block(control, block, fl, sl)` (os_mem.h lines 557-578). -/
def remove_free_block (m : Mem) (c b fl sl : Nat) : Mem :=
  let prev := mread m (b + 12)
  let next := mread m (b + 8)
  let m1 := mwrite m (next + 12) prev
  let m2 := mwrite m1 (prev + 8) next
  if mread m2 (blocksAddr c fl sl) = b then
    let m3 := mwrite m2 (blocksAddr c fl sl) next
    if next = blockNullAddr c then
      let m4 := mwrite m3 (slBitmapAddr c fl) (mread m3 (slBitmapAddr c fl) &&& maskNot sl)
      if mread m4 (slBitmapAddr c fl) = 0 then
        mwrite m4 (flBitmapAddr c) (mread m4 (flBitmapAddr c) &&& maskNot fl)
      else m4
    else m3
  else m2

/-- `insert_free_block(control, block, fl, sl)` (os_mem.h lines 581-595). -/
def insert_free_block (m : Mem) (c b fl sl : Nat) : Mem :=
  let current := mread m (blocksAddr c fl sl)
  let m1 := mwrite m (b + 8) current
  let m2 := mwrite m1 (b + 12) (blockNullAddr c)
  let m3 := mwrite m2 (current + 12) b
  let m4 := mwrite m3 (blocksAddr c fl sl) b
  let m5 := mwrite m4 (flBitmapAddr c) (mread m4 (flBitmapAddr c) ||| (1 <<< fl))
  mwrite m5 (slBitmapAddr c fl) (mread m5 (slBitmapAddr c fl) ||| (1 <<< sl))

/-- `block_remove(control, block)` (os_mem.h lines 598-603). -/
def block_remove (m : Mem) (c b : Nat) : Mem :=
  let fs := mapping_insert (block_size m b)
  remove_free_block m c b fs.1 fs.2

/-- `block_insert(control, block)` (os_mem.h lines 606-611). -/
def block_insert (m : Mem) (c b : Nat) : Mem :=
  let fs := mapping_insert (block_size m b)
  insert_free_block m c b fs.1 fs.2

/-- `block_can_split(block, size) = block_size(block) >= sizeof(block_header_t) + size` -/
def block_can_split (m : Mem) (b size : Nat) : Bool :=
  block_size m b ≥ block_header_size + size

/-- `block_split(block, size)` (os_mem.h lines 619-629).  NOTE: this source,
unlike upstream TLSF, never writes the remaining block's size word
(`block_set_size(remaining, remain_size)` is absent), so the remaining
header's size is whatever word already sits at `remaining + 4` in memory. -/
def block_split (m : Mem) (b size : Nat) : Mem × Nat :=
  let remaining := block_to_ptr b + size - block_header_overhead
  let m1 := block_set_size m b size
  (block_mark_as_free m1 remaining, remaining)

/-- `block_absorb(prev, block)` (os_mem.h lines 632-638):
`prev->size += block_size(block) + overhead` followed by `block_link_next`. -/
def block_absorb (m : Mem) (prev b : Nat) : Mem × Nat :=
  let m1 := mwrite m (prev + 4) (mread m (prev + 4) + (block_size m b + block_header_overhead))
  ((block_link_next m1 prev).1, prev)

/-- `block_merge_prev(control, block)` (os_mem.h lines 641-650). -/
def block_merge_prev (m : Mem) (c b : Nat) : Mem × Nat :=
  if block_is_prev_free m b then
    let prev := block_prev m b
    let m1 := block_remove m c prev
    block_absorb m1 prev b
  else (m, b)

/-- `block_merge_next(control, block)` (os_mem.h lines 653-661). -/
def block_merge_next (m : Mem) (c b : Nat) : Mem × Nat :=
  let next := block_next m b
  if block_is_free m next then
    let m1 := block_remove m c next
    (block_absorb m1 b next).1 |> fun m2 => (m2, b)
  else (m, b)

/-- `block_trim_free(control, block, size)` (os_mem.h lines 664-672). -/
def block_trim_free (m : Mem) (c b size : Nat) : Mem :=
  if block_can_split m b size then
    let r := block_split m b size
    let m2 := (block_link_next r.1 b).1
    let m3 := block_set_prev_free m2 r.2
    block_insert m3 c r.2
  else m

/-- `block_trim_used(control, block, size)` (os_mem.h lines 675-685). -/
def block_trim_used (m : Mem) (c b size : Nat) : Mem :=
  if block_can_split m b size then
    let r := block_split m b size
    let m2 := block_set_prev_used r.1 r.2
    let r2 := block_merge_next m2 c r.2
    block_insert r2.1 c r2.2
  else m

/-- `block_trim_free_leading(control, block, size)` (os_mem.h lines 687-700). -/
def block_trim_free_leading (m : Mem) (c b size : Nat) : Mem × Nat :=
  if block_can_split m b size then
    let r := block_split m b (size - block_header_overhead)
    let m2 := block_set_prev_free r.1 r.2
    let m3 := (block_link_next m2 b).1
    (block_insert m3 c b, r.2)
  else (m, b)

/-- `search_suitable_block(control, &fl, &sl)` (os_mem.h lines 527-554).
Returns the updated `(fl, sl)` and the found block (`0` = none, like the C
null pointer). -/
def search_suitable_block (m : Mem) (c fl sl : Nat) : Nat × Nat × Nat :=
  let sl_map := mread m (slBitmapAddr c fl) &&& maskGE sl
  if sl_map = 0 then
    let fl_map := mread m (flBitmapAddr c) &&& maskGE (fl + 1)
    if fl_map = 0 then (fl, sl, 0)
    else
      let fl' := tlsf_ffs fl_map
      let sl' := tlsf_ffs (mread m (slBitmapAddr c fl'))
      (fl', sl', mread m (blocksAddr c fl' sl'))
  else
    let sl' := tlsf_ffs sl_map
    (fl, sl', mread m (blocksAddr c fl sl'))

/-- `block_locate_free(control, size)` (os_mem.h lines 702-726): search and,
when found, remove the block from its free list.  Returns the new memory and
the block (`0` = out of memory). -/
def block_locate_free (m : Mem) (c size : Nat) : Mem × Nat :=
  if size ≠ 0 then
    let fs := mapping_search size
    if fs.1 < FL_INDEX_COUNT then
      let r := search_suitable_block m c fs.1 fs.2
      if r.2.2 ≠ 0 then (remove_free_block m c r.2.2 r.1 r.2.1, r.2.2)
      else (m, 0)
    else (m, 0)
  else (m, 0)

/-- `block_prepare_used(control, block, size)` (os_mem.h lines 728-737). -/
def block_prepare_used (m : Mem) (c b size : Nat) : Mem × Nat :=
  if b ≠ 0 then
    let m1 := block_trim_free m c b size
    let m2 := block_mark_as_used m1 b
    (m2, block_to_ptr b)
  else (m, 0)

/-- `control_constructor(control)` (os_mem.h lines 740-754). -/
def control_constructor (m : Mem) (c : Nat) : Mem :=
  let m1 := mwrite m (c + 8) (blockNullAddr c)
  let m2 := mwrite m1 (c + 12) (blockNullAddr c)
  let m3 := mwrite m2 (flBitmapAddr c) 0
  (List.range FL_INDEX_COUNT).foldl (fun mm i =>
    (List.range SL_INDEX_COUNT).foldl (fun mm2 j =>
        mwrite mm2 (blocksAddr c i j) (blockNullAddr c))
      (mwrite mm (slBitmapAddr c i) 0)) m3

/-- `os_tlsf_add_pool(tlsf, mem, bytes)` (os_mem.h lines 886-920). -/
def os_tlsf_add_pool (m : Mem) (c memA bytes : Nat) : Mem × Nat :=
  let pool_overhead := 2 * block_header_overhead
  let pool_bytes := align_down (bytes - pool_overhead) ALIGN_SIZE
  if memA % ALIGN_SIZE ≠ 0 then (m, 0)
  else if pool_bytes < block_size_min ∨ pool_bytes > block_size_max then (m, 0)
  else
    let block := memA - block_header_overhead
    let m1 := block_set_size m block pool_bytes
    let m2 := block_set_free m1 block
    let m3 := block_set_prev_used m2 block
    let m4 := block_insert m3 c block
    let r := block_link_next m4 block
    let m5 := block_set_size r.1 r.2 0
    let m6 := block_set_used m5 r.2
    let m7 := block_set_prev_free m6 r.2
    (m7, memA)

/-- `os_tlsf_create(mem)` (os_mem.h lines 934-944). -/
def os_tlsf_create (m : Mem) (memA : Nat) : Mem × Nat :=
  if memA % ALIGN_SIZE ≠ 0 then (m, 0)
  else (control_constructor m memA, memA)

/-- `os_tlsf_create_with_pool(mem, bytes)` (os_mem.h lines 946-951). -/
def os_tlsf_create_with_pool (m : Mem) (memA bytes : Nat) : Mem × Nat :=
  let r := os_tlsf_create m memA
  let r2 := os_tlsf_add_pool r.1 r.2 (memA + os_tlsf_size) (bytes - os_tlsf_size)
  (r2.1, r.2)

/-- `os_tlsf_get_pool(tlsf) = (char*)tlsf + os_tlsf_size()` -/
def os_tlsf_get_pool (c : Nat) : Nat := c + os_tlsf_size

/-- `os_tlsf_malloc(tlsf, size)` (os_mem.h lines 964-970). -/
def os_tlsf_malloc (m : Mem) (c size : Nat) : Mem × Nat :=
  let adjust := adjust_request_size size ALIGN_SIZE
  let r := block_locate_free m c adjust
  block_prepare_used r.1 c r.2 adjust

/-- `os_tlsf_memalign(tlsf, align, size)` (os_mem.h lines 972-1022). -/
def os_tlsf_memalign (m : Mem) (c align size : Nat) : Mem × Nat :=
  let adjust := adjust_request_size size ALIGN_SIZE
  let gap_minimum := block_header_size
  let size_with_gap := adjust_request_size (adjust + align + gap_minimum) align
  let aligned_size := if adjust ≠ 0 ∧ align > ALIGN_SIZE then size_with_gap else adjust
  let r := block_locate_free m c aligned_size
  let b := r.2
  if b ≠ 0 then
    let ptr := block_to_ptr b
    let aligned := align_ptr ptr align
    let gap := aligned - ptr
    let aligned2 :=
      if gap ≠ 0 ∧ gap < gap_minimum then
        let gap_remain := gap_minimum - gap
        let offset := max gap_remain align
        align_ptr (aligned + offset) align
      else aligned
    let gap2 := aligned2 - ptr
    if gap2 ≠ 0 then
      let r2 := block_trim_free_leading r.1 c b gap2
      block_prepare_used r2.1 c r2.2 adjust
    else
      block_prepare_used r.1 c b adjust
  else
    block_prepare_used r.1 c b adjust

/-- `os_tlsf_free(tlsf, ptr)` (os_mem.h lines 1024-1039): returns the new
memory and the raw stored size word of the freed block (flags included),
`0` for a null pointer. -/
def os_tlsf_free (m : Mem) (c p : Nat) : Mem × Nat :=
  if p ≠ 0 then
    let b := block_from_ptr p
    let size := mread m (b + 4)
    let m1 := block_mark_as_free m b
    let r1 := block_merge_prev m1 c b
    let r2 := block_merge_next r1.1 c r1.2
    (block_insert r2.1 c r2.2, size)
  else (m, 0)

/-! ## Debugging utilities (os_mem.h lines 760-845)

`integrity_walker` computes `this_status` from the visited block, sets a
local `int status = 0`, and accumulates `integ->status += status`; no branch
of it, nor of `os_tlsf_check`'s loops, ever adds a non-zero amount, so the
checkers cannot report corruption.  The while-loops are translated with a
fuel bound (the C loops terminate on a well-formed heap; extra fuel does not
change the result). -/

/-- The `while(block != &control->block_null)` loop of `os_tlsf_check`
(os_mem.h lines 794-799): the body computes `mapping_insert(block_size)`
into two locals and discards them; `status` is never modified. -/
def check_chain_step (m : Mem) (c : Nat) : Nat → Nat → Nat → Nat
  | 0, _, status => status
  | fuel + 1, b, status =>
    if b ≠ blockNullAddr c then check_chain_step m c fuel (mread m (b + 8)) status
    else status

/-- `os_tlsf_check(tlsf)` (os_mem.h lines 780-803). -/
def os_tlsf_check (m : Mem) (c fuel : Nat) : Nat :=
  (List.range FL_INDEX_COUNT).foldl (fun status i =>
    (List.range SL_INDEX_COUNT).foldl (fun status2 j =>
      check_chain_step m c fuel (mread m (blocksAddr c i j)) status2) status) 0

/-- `integrity_walker(ptr, size, used, user)` (os_mem.h lines 766-778): the
pair is `(prev_status, status)`; the local `status` the C code adds is the
constant `0`. -/
def integrity_walker (m : Mem) (p : Nat) (size : Nat) (used : Bool) (integ : Nat × Nat) :
    Nat × Nat :=
  let block := block_from_ptr p
  let this_status : Nat := if block_is_free m block then 1 else 0
  let status : Nat := 0
  (this_status, integ.2 + status)

/-- The `while(block && !block_is_last(block))` physical walk of
`os_tlsf_walk_pool` (os_mem.h lines 812-826). -/
def walk_pool_aux {α : Type} (m : Mem) (f : Nat → Nat → Bool → α → α) :
    Nat → Nat → α → α
  | 0, _, acc => acc
  | fuel + 1, b, acc =>
    if b ≠ 0 ∧ ¬ block_is_last m b then
      walk_pool_aux m f fuel (block_next m b)
        (f (block_to_ptr b) (block_size m b) (! block_is_free m b) acc)
    else acc

/-- `os_tlsf_walk_pool(pool, walker, user)` (os_mem.h lines 812-826). -/
def os_tlsf_walk_pool {α : Type} (m : Mem) (pool fuel : Nat)
    (f : Nat → Nat → Bool → α → α) (acc : α) : α :=
  walk_pool_aux m f fuel (pool - block_header_overhead) acc

/-- `os_tlsf_check_pool(pool)` (os_mem.h lines 838-845). -/
def os_tlsf_check_pool (m : Mem) (pool fuel : Nat) : Nat :=
  (os_tlsf_walk_pool m pool fuel (integrity_walker m) (0, 0)).2

/-! ## `os_tlsf_realloc` (os_mem.h lines 1054-1105) -/

/-- Word-by-word copy loop standing for the `os_memcpy(p, ptr, minsize)`
call inside `os_tlsf_realloc`, on the word-granular heap view: the
`(n+3)/4` words covering the `n` payload bytes are copied.  (`os_memcpy`
itself is modelled byte-exactly for claim C9; no theorem below exercises
this branch.) -/
def copy_words_aux : Nat → Mem → Nat → Nat → Mem
  | 0, m, _, _ => m
  | k + 1, m, d, s => copy_words_aux k (mwrite m d (mread m s)) (d + 4) (s + 4)

def os_memcpy_heap (m : Mem) (d s n : Nat) : Mem := copy_words_aux ((n + 3) / 4) m d s

/-- `os_tlsf_realloc(tlsf, ptr, size)` (os_mem.h lines 1054-1105). -/
def os_tlsf_realloc (m : Mem) (c p size : Nat) : Mem × Nat :=
  if p ≠ 0 ∧ size = 0 then ((os_tlsf_free m c p).1, 0)
  else if p = 0 then os_tlsf_malloc m c size
  else
    let b := block_from_ptr p
    let next := block_next m b
    let cursize := block_size m b
    let combined := cursize + block_size m next + block_header_overhead
    let adjust := adjust_request_size size ALIGN_SIZE
    if size > cursize ∧ adjust = 0 then (m, 0)
    else if adjust > cursize ∧ (¬ block_is_free m next ∨ adjust > combined) then
      let r := os_tlsf_malloc m c size
      if r.2 ≠ 0 then
        let minsize := min cursize size
        let m2 := os_memcpy_heap r.1 r.2 p minsize
        ((os_tlsf_free m2 c p).1, r.2)
      else (r.1, 0)
    else
      let mr :=
        if adjust > cursize then
          let r2 := block_merge_next m c b
          block_mark_as_used r2.1 b
        else m
      (block_trim_used mr c b adjust, p)

/-! ## The heap facade (os_mem.c)

`os_mem.c` keeps a singleton state: the TLSF handle over the static
`work_mem_int` buffer, the `cur_used` / `max_used` counters and the
`zero_mem` sentinel variable.  In the model the static buffer sits at the
4-aligned address `workMemBase`, and `zero_mem` (a separate static
`uint32_t`) at the distinct address `zeroMemAddr`; only its identity and
its value matter. -/

def OS_MEM_SIZE : Nat := 1024

def ZERO_MEM_SENTINEL : Nat := 0xa1b2c3d4

/-- Link address of the static `work_mem_int[OS_MEM_SIZE/4]` array
(4-aligned, as an array of `uint32_t`). -/
def workMemBase : Nat := 4096

/-- Address of the static `zero_mem` variable: outside the work buffer and
non-null; only pointer identity is compared against it. -/
def zeroMemAddr : Nat := 8192

structure MState where
  mem : Mem
  tlsf : Nat
  cur_used : Nat
  max_used : Nat
  zero_mem : Nat

/-- `os_mem_init()` (os_mem.c lines 57-63), together with the
zero-initialization of the static counters and the initializer of
`zero_mem`. -/
def os_mem_init (m : Mem) : MState :=
  let r := os_tlsf_create_with_pool m workMemBase OS_MEM_SIZE
  { mem := r.1, tlsf := r.2, cur_used := 0, max_used := 0,
    zero_mem := ZERO_MEM_SENTINEL }

/-- `os_mem_alloc(size)` (os_mem.c lines 80-98).  The monitor call on
allocation failure is logging only. -/
def os_mem_alloc (st : MState) (size : Nat) : MState × Nat :=
  if size = 0 then (st, zeroMemAddr)
  else
    let r := os_tlsf_malloc st.mem st.tlsf size
    if r.2 ≠ 0 then
      let cu := (st.cur_used + size) % 2 ^ 32
      ({ st with mem := r.1, cur_used := cu, max_used := max cu st.max_used }, r.2)
    else ({ st with mem := r.1 }, 0)

/-- `os_mem_free(data)` (os_mem.c lines 104-111). -/
def os_mem_free (st : MState) (p : Nat) : MState :=
  if p = zeroMemAddr then st
  else if p = 0 then st
  else
    let r := os_tlsf_free st.mem st.tlsf p
    { st with
        mem := r.1
        cur_used := if st.cur_used > r.2 then st.cur_used - r.2 else 0 }

/-- `os_mem_realloc(data_p, new_size)` (os_mem.c lines 120-136). -/
def os_mem_realloc (st : MState) (p ns : Nat) : MState × Nat :=
  if ns = 0 then (os_mem_free st p, zeroMemAddr)
  else if p = zeroMemAddr then os_mem_alloc st ns
  else
    let r := os_tlsf_realloc st.mem st.tlsf p ns
    if r.2 = 0 then ({ st with mem := r.1 }, 0)
    else ({ st with mem := r.1 }, r.2)

def OS_RES_INV : Nat := 0

def OS_RES_OK : Nat := 1

/-- `os_mem_test()` (os_mem.c lines 138-151). -/
def os_mem_test (st : MState) (fuel : Nat) : Nat :=
  if st.zero_mem ≠ ZERO_MEM_SENTINEL then OS_RES_INV
  else if os_tlsf_check st.mem st.tlsf fuel ≠ 0 then OS_RES_INV
  else if os_tlsf_check_pool st.mem (os_tlsf_get_pool st.tlsf) fuel ≠ 0 then OS_RES_INV
  else OS_RES_OK

/-! ## Concrete executions

`freshMem` is the heap right after `os_mem_init`-style creation:
`os_tlsf_create_with_pool` over the zero-initialized static buffer at
`workMemBase = 4096`.  The control structure spans `[4096, 4644)`, the
pool's first block header sits at `4640` (its `prev_phys_block` word
deliberately overlaps the end of the control structure and is never used),
the single free block has `pool_bytes = 468`, and the zero-size sentinel
header sits at `5112`. -/

def freshMem : Mem := (os_tlsf_create_with_pool [] workMemBase OS_MEM_SIZE).1

/-- Heap after the single call `os_tlsf_malloc(tlsf, 64)` on the fresh pool. -/
def memAfterMalloc64 : Mem := (os_tlsf_malloc freshMem workMemBase 64).1

/-- The pointer that call returns (`4648 = 4640 + block_start_offset`). -/
def ptrMalloc64 : Nat := (os_tlsf_malloc freshMem workMemBase 64).2

/-- Heap after `os_tlsf_free` of that pointer. -/
def memAfterFree64 : Mem := (os_tlsf_free memAfterMalloc64 workMemBase ptrMalloc64).1

set_option maxRecDepth 40000

/-- C2 (code bug): on the fresh 1024-byte pool, the very first splitting
`os_tlsf_malloc(64)` violates the segregated free-list invariant.  Because
`block_split` never initializes the remaining block's size word, the split
remainder at `4708` ends up with the address-valued stored size `4708`
(written into its header by `block_link_next` acting on the uninitialized
zero size), so `block_insert` files it at `(fl, sl) = (6, 4)` even though
only `fl < FL_INDEX_COUNT = 4` exists; the out-of-bounds `sl_bitmap[6]`
update aliases the `blocks[0][2]` slot, after which, at the in-range index
pair `(0, 2)`, the list head differs from `&block_null` while bit 2 of
`sl_bitmap[0]` is clear — contradicting the claimed "bit sl of sl_bitmap[fl]
is set iff blocks[fl][sl] is non-empty". -/
theorem C2_freelist_invariant_code_bug :
    block_size freshMem 4640 = 468 ∧
    mread freshMem (blocksAddr workMemBase 2 26) = 4640 ∧
    mapping_insert 468 = (2, 26) ∧
    ptrMalloc64 = 4648 ∧
    block_size memAfterMalloc64 4708 = 4708 ∧
    mapping_insert (block_size memAfterMalloc64 4708) = (6, 4) ∧
    FL_INDEX_COUNT = 4 ∧
    slBitmapAddr workMemBase 6 = blocksAddr workMemBase 0 2 ∧
    mread memAfterMalloc64 (blocksAddr workMemBase 0 2) = 4112 ∧
    blockNullAddr workMemBase = 4096 ∧
    Nat.testBit (mread memAfterMalloc64 (slBitmapAddr workMemBase 0)) 2 = false := by
  decide

/-- C1 (code bug): the coalescing invariant is destroyed by the same missing
initialization.  On the fresh pool, `os_tlsf_malloc(64)` followed by
`os_tlsf_free` of the returned pointer should leave the heap as it started:
one free block of `468` bytes followed by the sentinel (no two adjacent free
blocks, full coalescing).  Instead the free merges the freed block with the
garbage remainder whose stored size is the address value `4708`, leaving a
"free block" of stored size `4776` whose physical successor would sit at
`9420` — `4300` bytes past the end of the 1024-byte work memory at `5120` —
so the pool is no longer partitioned into blocks at all and the claimed
invariant over the physical chain is unobtainable. -/
theorem C1_coalesce_code_bug :
    block_size freshMem 4640 = 468 ∧
    block_is_free freshMem 4640 = true ∧
    468 - 64 - block_header_overhead = 400 ∧
    block_size memAfterMalloc64 4708 = 4708 ∧
    block_is_free memAfterFree64 4640 = true ∧
    block_size memAfterFree64 4640 = 4776 ∧
    block_next memAfterFree64 4640 = 9420 ∧
    workMemBase + OS_MEM_SIZE = 5120 := by
  decide

/-- An inconsistent heap state for claim C3: starting from the fresh pool,
the single 468-byte free block's header is rewritten into two physically
adjacent free blocks (sizes 12 and 452, the second carrying `PREV_FREE`),
while the free list still carries the block at `4640` under `(2, 26)` —
a state with both a coalesce violation (adjacent free blocks) and a
free-list mapping violation (`mapping_insert(12) = (0,3) ≠ (2,26)`). -/
def craftMState : MState :=
  { mem := mwrite (mwrite freshMem 4644 13) 4660 455
    tlsf := workMemBase
    cur_used := 0
    max_used := 0
    zero_mem := ZERO_MEM_SENTINEL }

/-- C3 (code bug): `os_mem_test` returns `OS_RES_OK` on the inconsistent
heap `craftMState` even though it contains two physically adjacent free
blocks (`4640` of size 12 and `4656` of size 452) and a free-list block
mapping to the wrong indices — the claim requires `OS_RES_INV` exactly
then.  The translated `os_tlsf_check` / `os_tlsf_check_pool` cannot report:
`integrity_walker` discards its computed status and `os_tlsf_check`'s loop
body has no effect, so both always return 0. -/
theorem C3_mem_test_code_bug :
    block_is_free craftMState.mem 4640 = true ∧
    block_size craftMState.mem 4640 = 12 ∧
    block_next craftMState.mem 4640 = 4656 ∧
    block_is_free craftMState.mem 4656 = true ∧
    block_is_prev_free craftMState.mem 4656 = true ∧
    mread craftMState.mem (blocksAddr workMemBase 2 26) = 4640 ∧
    mapping_insert (block_size craftMState.mem 4640) = (0, 3) ∧
    os_mem_test craftMState 16 = OS_RES_OK ∧
    os_tlsf_check craftMState.mem workMemBase 16 = 0 ∧
    os_tlsf_check_pool craftMState.mem (os_tlsf_get_pool workMemBase) 16 = 0 := by
  decide

/-! ## Arithmetic facts about `align_up` -/

theorem le_align_up (x a : Nat) (ha : 0 < a) : x ≤ align_up x a := by
  unfold align_up
  have hdm := Nat.div_add_mod (x + a - 1) a
  have hmod : (x + a - 1) % a < a := Nat.mod_lt _ ha
  have hcomm : (x + a - 1) / a * a = a * ((x + a - 1) / a) := Nat.mul_comm _ _
  omega

theorem align_up_lt (x a : Nat) (ha : 0 < a) : align_up x a < x + a := by
  unfold align_up
  have hdm := Nat.div_add_mod (x + a - 1) a
  have hmod : (x + a - 1) % a < a := Nat.mod_lt _ ha
  have hcomm : (x + a - 1) / a * a = a * ((x + a - 1) / a) := Nat.mul_comm _ _
  omega

theorem dvd_align_up (x a : Nat) : a ∣ align_up x a :=
  Dvd.intro _ (Nat.mul_comm _ _)

/-- C5: `os_tlsf_realloc` edge cases.  With a null pointer and a positive
size the call is exactly `os_tlsf_malloc`; with a non-null pointer and size
zero it frees the pointer (same resulting heap) and returns null; and when
the requested size exceeds `block_size_max` (with a genuine current block,
i.e. one whose stored size is below `block_size_max`), it returns null and
the heap — hence the original block's size, status and payload — is left
completely unchanged. -/
theorem C5_realloc_edge_cases :
    (∀ (m : Mem) (c size : Nat), 0 < size →
      os_tlsf_realloc m c 0 size = os_tlsf_malloc m c size) ∧
    (∀ (m : Mem) (c p : Nat), p ≠ 0 →
      os_tlsf_realloc m c p 0 = ((os_tlsf_free m c p).1, 0)) ∧
    (∀ (m : Mem) (c p size : Nat), p ≠ 0 →
      block_size m (block_from_ptr p) < block_size_max →
      size > block_size_max →
      os_tlsf_realloc m c p size = (m, 0)) := by
  refine ⟨?_, ?_, ?_⟩
  · intro m c size _
    simp [os_tlsf_realloc]
  · intro m c p hp
    simp [os_tlsf_realloc, hp]
  · intro m c p size hp hbs hsz
    have hbm : block_size_max = 1024 := rfl
    have hs0 : size ≠ 0 := by omega
    have hadj : adjust_request_size size ALIGN_SIZE = 0 := by
      unfold adjust_request_size
      rw [if_pos hs0]
      have h1 : size ≤ align_up size ALIGN_SIZE := le_align_up size ALIGN_SIZE (by decide)
      have h2 : ¬ align_up size ALIGN_SIZE < block_size_max := by omega
      simp only [h2, if_false]
    have hA : ¬ (p ≠ 0 ∧ size = 0) := by
      intro h
      exact hs0 h.2
    simp only [os_tlsf_realloc]
    rw [if_neg hA, if_neg hp]
    rw [if_pos ⟨by omega, hadj⟩]

/-- C8: `os_mem_alloc(0)` returns the same non-null address — the address of
the static 4-byte `zero_mem` object, which `os_mem_init` leaves holding the
constant `0xa1b2c3d4` — on every call and leaves the state untouched, and
`os_mem_free` applied to that address or to null is a no-op: the whole
facade state (TLSF heap memory, `cur_used`, `max_used`, the sentinel value)
is returned unchanged. -/
theorem C8_zero_alloc_sentinel :
    (∀ st : MState, os_mem_alloc st 0 = (st, zeroMemAddr)) ∧
    zeroMemAddr ≠ 0 ∧
    (os_mem_init []).zero_mem = ZERO_MEM_SENTINEL ∧
    ZERO_MEM_SENTINEL = 0xa1b2c3d4 ∧
    (∀ st : MState, os_mem_free st zeroMemAddr = st) ∧
    (∀ st : MState, os_mem_free st 0 = st) := by
  refine ⟨?_, by decide, rfl, rfl, ?_, ?_⟩
  · intro st
    simp [os_mem_alloc]
  · intro st
    simp [os_mem_free]
  · intro st
    simp [os_mem_free, zeroMemAddr]

theorem C7_mapping_insert_formula_witness :
    mapping_insert 468 = claimC7_mapping 468 :=
  C7_mapping_insert_formula.1 468 (by decide) (by decide)

theorem C5_realloc_edge_cases_witness :
    os_tlsf_realloc freshMem workMemBase 0 5 = os_tlsf_malloc freshMem workMemBase 5 ∧
    os_tlsf_realloc freshMem workMemBase 4648 0 =
      ((os_tlsf_free freshMem workMemBase 4648).1, 0) ∧
    os_tlsf_realloc freshMem workMemBase 4648 2000 = (freshMem, 0) :=
  ⟨C5_realloc_edge_cases.1 freshMem workMemBase 5 (by decide),
   C5_realloc_edge_cases.2.1 freshMem workMemBase 4648 (by decide),
   C5_realloc_edge_cases.2.2 freshMem workMemBase 4648 2000 (by decide) (by decide)
     (by decide)⟩

/-! ## Lemmas towards claim C4: bit scanning, the mapping classes, and the
search guarantee -/

theorem maskGE_eq_shift (n : Nat) (hn : n ≤ 32) : maskGE n = (2 ^ (32 - n) - 1) <<< n := by
  unfold maskGE
  rw [Nat.shiftLeft_eq, Nat.sub_mul, one_mul, ← pow_add]
  congr 2
  omega

theorem testBit_maskGE (n w i : Nat) (hn : n ≤ 32) :
    (w &&& maskGE n).testBit i = (w.testBit i && (decide (n ≤ i) && decide (i < 32))) := by
  rw [Nat.testBit_land, maskGE_eq_shift n hn, Nat.testBit_shiftLeft,
    Nat.testBit_two_pow_sub_one]
  by_cases h1 : n ≤ i <;> by_cases h2 : i < 32 <;>
    simp [h1, h2, Nat.lt_iff_add_one_le] <;> omega

theorem ffs_aux_testBit : ∀ fuel w, 0 < w → w < 2 ^ fuel →
    w.testBit (ffs_aux fuel w) = true ∧ ffs_aux fuel w < fuel := by
  intro fuel
  induction fuel with
  | zero => intro w h1 h2; omega
  | succ n ih =>
    intro w h1 h2
    rw [ffs_aux]
    by_cases h : w % 2 = 1
    · rw [if_pos h]
      refine ⟨?_, by omega⟩
      rw [Nat.testBit_zero]
      simp [h]
    · rw [if_neg h]
      have hw2 : 0 < w / 2 := by omega
      have hw2' : w / 2 < 2 ^ n := by omega
      obtain ⟨ha, hb⟩ := ih (w / 2) hw2 hw2'
      refine ⟨?_, by omega⟩
      rw [Nat.testBit_succ]
      exact ha

theorem tlsf_ffs_spec (w : Nat) (h1 : 0 < w) (h2 : w < 2 ^ 32) :
    w.testBit (tlsf_ffs w) = true ∧ tlsf_ffs w < 32 :=
  ffs_aux_testBit 32 w h1 h2

theorem xor32_sub (v : Nat) (h1 : 32 ≤ v) (h2 : v < 64) : v ^^^ 32 = v - 32 := by
  interval_cases v <;> rfl

theorem mapping_insert_small (x : Nat) (hx : x < 128) :
    mapping_insert x = (0, x / 4) := by
  unfold mapping_insert
  rw [if_pos (by simpa [SMALL_BLOCK_SIZE] using hx)]
  rfl

theorem mapping_insert_large (x : Nat) (hx : 128 ≤ x) (hx32 : x < 2 ^ 32) :
    mapping_insert x = (Nat.log2 x - 6, x / 2 ^ (Nat.log2 x - 5) - 32) ∧
    32 ≤ x / 2 ^ (Nat.log2 x - 5) ∧ x / 2 ^ (Nat.log2 x - 5) < 64 := by
  have hx0 : x ≠ 0 := by omega
  have hL7 : 7 ≤ Nat.log2 x := by
    rw [Nat.le_log2 hx0]
    simpa using hx
  have hlow : 2 ^ Nat.log2 x ≤ x := Nat.log2_self_le hx0
  have hhigh : x < 2 ^ (Nat.log2 x + 1) := Nat.lt_log2_self
  have hpow : (0 : Nat) < 2 ^ (Nat.log2 x - 5) := Nat.pos_pow_of_pos _ (by decide)
  have hdiv_lo : 32 ≤ x / 2 ^ (Nat.log2 x - 5) := by
    rw [Nat.le_div_iff_mul_le hpow]
    have h32 : (32 : Nat) = 2 ^ 5 := rfl
    rw [h32, ← pow_add]
    calc 2 ^ (5 + (Nat.log2 x - 5)) = 2 ^ Nat.log2 x := by congr 1; omega
    _ ≤ x := hlow
  have hdiv_hi : x / 2 ^ (Nat.log2 x - 5) < 64 := by
    rw [Nat.div_lt_iff_lt_mul hpow]
    have h64 : (64 : Nat) = 2 ^ 6 := rfl
    calc x < 2 ^ (Nat.log2 x + 1) := hhigh
    _ = 64 * 2 ^ (Nat.log2 x - 5) := by rw [h64, ← pow_add]; congr 1; omega
  refine ⟨?_, hdiv_lo, hdiv_hi⟩
  unfold mapping_insert
  rw [if_neg (by have hsb : SMALL_BLOCK_SIZE = 128 := rfl; omega)]
  simp only [tlsf_fls_eq_log2 x hx32, Nat.shiftRight_eq_div_pow]
  have h32 : (1 <<< SL_INDEX_COUNT_LOG2 : Nat) = 32 := rfl
  have h5 : SL_INDEX_COUNT_LOG2 = 5 := rfl
  have h6 : FL_INDEX_SHIFT - 1 = 6 := rfl
  rw [h32, h5, h6, xor32_sub _ hdiv_lo hdiv_hi]

theorem mapping_search_guarantee (s bs f0 s0 f1 s1 : Nat)
    (hs4 : s % 4 = 0) (hs : 0 < s) (hs1024 : s < 1024) (hbs32 : bs < 2 ^ 32)
    (h0 : mapping_search s = (f0, s0)) (h1 : mapping_insert bs = (f1, s1))
    (hlex : (f1 = f0 ∧ s0 ≤ s1) ∨ f0 < f1) : s ≤ bs := by
  have hSB : SMALL_BLOCK_SIZE = 128 := rfl
  by_cases hsmall : s < 128
  · have h0' : (0, s / 4) = (f0, s0) := by
      rw [← h0]
      unfold mapping_search
      rw [if_neg (by omega), mapping_insert_small s hsmall]
    obtain ⟨hf0, hs0⟩ := Prod.mk.injEq .. ▸ h0'
    by_cases hbs : bs < 128
    · have h1' := mapping_insert_small bs hbs
      rw [h1] at h1'
      obtain ⟨hf1, hs1v⟩ := Prod.mk.injEq .. ▸ h1'
      rcases hlex with ⟨_, hle⟩ | hlt
      · omega
      · omega
    · omega
  · have hs0' : s ≠ 0 := by omega
    have hL7 : 7 ≤ Nat.log2 s := by
      rw [Nat.le_log2 hs0']
      show 128 ≤ s
      omega
    have hL9 : Nat.log2 s ≤ 9 := by
      have h10 : Nat.log2 s < 10 := by
        rw [Nat.log2_lt hs0']
        show s < 1024
        omega
      omega
    have hslow : 2 ^ Nat.log2 s ≤ s := Nat.log2_self_le hs0'
    have hshigh : s < 2 ^ (Nat.log2 s + 1) := Nat.lt_log2_self
    have hpow16 : (2 : Nat) ^ (Nat.log2 s - 5) ≤ 16 := by
      calc (2:Nat) ^ (Nat.log2 s - 5) ≤ 2 ^ 4 := Nat.pow_le_pow_right (by decide) (by omega)
      _ = 16 := rfl
    have hpowpos : (0 : Nat) < 2 ^ (Nat.log2 s - 5) := Nat.pos_pow_of_pos _ (by decide)
    have hsearch : mapping_search s =
        mapping_insert (s + (2 ^ (Nat.log2 s - 5) - 1)) := by
      unfold mapping_search
      rw [if_pos (by omega)]
      congr 2
      rw [tlsf_fls_eq_log2 s (by omega)]
      have hS5 : SL_INDEX_COUNT_LOG2 = 5 := rfl
      rw [hS5, Nat.shiftLeft_eq, one_mul]
    have hr128 : 128 ≤ s + (2 ^ (Nat.log2 s - 5) - 1) := by omega
    have hr32 : s + (2 ^ (Nat.log2 s - 5) - 1) < 2 ^ 32 := by
      have : (1040 : Nat) < 2 ^ 32 := by decide
      omega
    obtain ⟨hr_eq, hrv_lo, hrv_hi⟩ :=
      mapping_insert_large (s + (2 ^ (Nat.log2 s - 5) - 1)) hr128 hr32
    rw [hsearch, hr_eq] at h0
    set r := s + (2 ^ (Nat.log2 s - 5) - 1) with hrdef
    have hr0 : r ≠ 0 := by omega
    have hrlow : 2 ^ Nat.log2 r ≤ r := Nat.log2_self_le hr0
    have hL'lo : Nat.log2 s ≤ Nat.log2 r := by
      rw [Nat.le_log2 hr0]
      omega
    have hL'hi : Nat.log2 r ≤ Nat.log2 s + 1 := by
      have h2 : Nat.log2 r < Nat.log2 s + 2 := by
        rw [Nat.log2_lt hr0]
        have hp1 : (2:Nat) ^ (Nat.log2 s - 5) ≤ 2 ^ (Nat.log2 s + 1) :=
          Nat.pow_le_pow_right (by decide) (by omega)
        have hp2 : (2:Nat) ^ (Nat.log2 s + 2) = 2 ^ (Nat.log2 s + 1) * 2 := by
          rw [← pow_succ]
        omega
      omega
    obtain ⟨hf0, hs0⟩ := Prod.mk.injEq .. ▸ h0
    have hbs128 : 128 ≤ bs := by
      by_contra hc
      have h1' := mapping_insert_small bs (by omega)
      rw [h1] at h1'
      obtain ⟨hf1, _⟩ := Prod.mk.injEq .. ▸ h1'
      rcases hlex with ⟨he, _⟩ | hlt <;> omega
    obtain ⟨hb_eq, hbv_lo, hbv_hi⟩ := mapping_insert_large bs hbs128 hbs32
    rw [h1] at hb_eq
    obtain ⟨hf1, hs1v⟩ := Prod.mk.injEq .. ▸ hb_eq
    have hLb7 : 7 ≤ Nat.log2 bs := by
      rw [Nat.le_log2 (by omega)]
      show 128 ≤ bs
      omega
    have hbslow : 2 ^ Nat.log2 bs ≤ bs := Nat.log2_self_le (by omega)
    rcases hlex with ⟨he, hle⟩ | hlt
    · -- same first-level class: Lb = L'
      have hLbL' : Nat.log2 bs = Nat.log2 r := by omega
      rw [hLbL'] at hs1v hbv_lo hbv_hi
      have hdivle : r / 2 ^ (Nat.log2 r - 5) ≤ bs / 2 ^ (Nat.log2 r - 5) := by omega
      have hpos' : (0:Nat) < 2 ^ (Nat.log2 r - 5) := Nat.pos_pow_of_pos _ (by decide)
      have hbs_ge : 2 ^ (Nat.log2 r - 5) * (bs / 2 ^ (Nat.log2 r - 5)) ≤ bs := by
        rw [Nat.mul_comm]
        exact Nat.div_mul_le_self bs _
      have hdm := Nat.div_add_mod r (2 ^ (Nat.log2 r - 5))
      have hmul_le : 2 ^ (Nat.log2 r - 5) * (r / 2 ^ (Nat.log2 r - 5)) ≤
          2 ^ (Nat.log2 r - 5) * (bs / 2 ^ (Nat.log2 r - 5)) :=
        Nat.mul_le_mul_left _ hdivle
      -- bound the remainder of r
      have hmod : r % 2 ^ (Nat.log2 r - 5) ≤ 2 ^ (Nat.log2 s - 5) - 1 := by
        by_cases hLL : Nat.log2 r = Nat.log2 s
        · rw [hLL]
          have := Nat.mod_lt r (y := 2 ^ (Nat.log2 s - 5)) hpowpos
          omega
        · -- L' = L + 1
          have hL1 : Nat.log2 r = Nat.log2 s + 1 := by omega
          have h2L1 : 2 ^ (Nat.log2 s + 1) ≤ r := by
            rw [← hL1]
            exact hrlow
          have hd_small : r - 2 ^ (Nat.log2 s + 1) < 2 ^ (Nat.log2 s - 5) := by omega
          have hksplit : (2:Nat) ^ (Nat.log2 s + 1) = 2 ^ (Nat.log2 s - 4) * 2 ^ 5 := by
            rw [← pow_add]
            congr 1
            omega
          have hrsplit : r = 2 ^ (Nat.log2 s - 4) * 2 ^ 5 + (r - 2 ^ (Nat.log2 s + 1)) := by
            omega
          have hmod_eq : r % 2 ^ (Nat.log2 s - 4) = (r - 2 ^ (Nat.log2 s + 1)) % 2 ^ (Nat.log2 s - 4) := by
            conv_lhs => rw [hrsplit]
            exact Nat.mul_add_mod _ _ _
          have hk45 : (2:Nat) ^ (Nat.log2 s - 5) ≤ 2 ^ (Nat.log2 s - 4) :=
            Nat.pow_le_pow_right (by decide) (by omega)
          have hsmallmod : (r - 2 ^ (Nat.log2 s + 1)) % 2 ^ (Nat.log2 s - 4) =
              r - 2 ^ (Nat.log2 s + 1) :=
            Nat.mod_eq_of_lt (by omega)
          have hL5 : Nat.log2 r - 5 = Nat.log2 s - 4 := by omega
          rw [hL5, hmod_eq, hsmallmod]
          omega
      omega
    · -- strictly larger first level: Lb ≥ L' + 1
      have hLb : Nat.log2 r + 1 ≤ Nat.log2 bs := by omega
      have hstep : (2:Nat) ^ (Nat.log2 s + 1) ≤ 2 ^ Nat.log2 bs :=
        Nat.pow_le_pow_right (by decide) (by omega)
      omega

/-- Per-head well-formedness for an in-range `(fl, sl)` whose bitmap bit is
set: the list head is a 4-aligned address beyond the control structure, its
stored size is a 32-bit value mapping back to `(fl, sl)`, and its free-list
neighbour pointers do not alias the head's own size word. -/
def headOK (m : Mem) (c fl sl : Nat) : Bool :=
  let h := mread m (blocksAddr c fl sl)
  h % 4 = 0 ∧ c + 544 ≤ h ∧ block_size m h < 2 ^ 32 ∧
  mapping_insert (block_size m h) = (fl, sl) ∧
  mread m (h + 8) + 12 ≠ h + 4 ∧ mread m (h + 12) + 8 ≠ h + 4

/-- Executable well-formedness of the segregated free-list heads of a TLSF
control structure at `c` (the fragment of the TLSF invariant the alignment
claim C4 rests on): the first-level bitmap only has bits below
`FL_INDEX_COUNT`, a set first-level bit implies a non-zero second-level
bitmap word, second-level bitmap words are 32-bit, and every set
second-level bit has a well-formed list head (`headOK`). -/
def wfCheck (m : Mem) (c : Nat) : Bool :=
  c % 4 = 0 ∧
  mread m (flBitmapAddr c) < 2 ^ FL_INDEX_COUNT ∧
  (List.range FL_INDEX_COUNT).all fun fl =>
    mread m (slBitmapAddr c fl) < 2 ^ 32 ∧
    ((mread m (flBitmapAddr c)).testBit fl = true →
      mread m (slBitmapAddr c fl) ≠ 0) ∧
    (List.range SL_INDEX_COUNT).all fun sl =>
      (mread m (slBitmapAddr c fl)).testBit sl = true → headOK m c fl sl

theorem wfCheck_spec (m : Mem) (c : Nat) (h : wfCheck m c = true) :
    c % 4 = 0 ∧
    mread m (flBitmapAddr c) < 2 ^ FL_INDEX_COUNT ∧
    ∀ fl, fl < FL_INDEX_COUNT →
      mread m (slBitmapAddr c fl) < 2 ^ 32 ∧
      ((mread m (flBitmapAddr c)).testBit fl = true →
        mread m (slBitmapAddr c fl) ≠ 0) ∧
      ∀ sl, sl < SL_INDEX_COUNT →
        (mread m (slBitmapAddr c fl)).testBit sl = true → headOK m c fl sl = true := by
  simp only [wfCheck, Bool.and_eq_true, decide_eq_true_eq, List.all_eq_true,
    List.mem_range] at h
  obtain ⟨h1, h2, h3⟩ := h
  refine ⟨h1, h2, ?_⟩
  intro fl hfl
  obtain ⟨ha, hb, hc⟩ := h3 fl hfl
  exact ⟨ha, hb, fun sl hsl hbit => hc sl hsl hbit⟩

theorem headOK_spec (m : Mem) (c fl sl : Nat) (h : headOK m c fl sl = true) :
    mread m (blocksAddr c fl sl) % 4 = 0 ∧
    c + 544 ≤ mread m (blocksAddr c fl sl) ∧
    block_size m (mread m (blocksAddr c fl sl)) < 2 ^ 32 ∧
    mapping_insert (block_size m (mread m (blocksAddr c fl sl))) = (fl, sl) ∧
    mread m (mread m (blocksAddr c fl sl) + 8) + 12 ≠ mread m (blocksAddr c fl sl) + 4 ∧
    mread m (mread m (blocksAddr c fl sl) + 12) + 8 ≠ mread m (blocksAddr c fl sl) + 4 := by
  simp only [headOK, Bool.and_eq_true, decide_eq_true_eq] at h
  exact ⟨h.1, h.2.1, h.2.2.1, h.2.2.2.1, h.2.2.2.2.1, h.2.2.2.2.2⟩

theorem search_suitable_block_spec (m : Mem) (c fl sl fl' sl' b : Nat)
    (hwf : wfCheck m c = true) (hfl : fl < FL_INDEX_COUNT) (hsl : sl < 32)
    (h : search_suitable_block m c fl sl = (fl', sl', b)) (hb : b ≠ 0) :
    fl' < FL_INDEX_COUNT ∧ sl' < 32 ∧
    (mread m (slBitmapAddr c fl')).testBit sl' = true ∧
    b = mread m (blocksAddr c fl' sl') ∧
    ((fl' = fl ∧ sl ≤ sl') ∨ fl < fl') := by
  obtain ⟨hc4, hflw, hrows⟩ := wfCheck_spec m c hwf
  have hFC : FL_INDEX_COUNT = 4 := rfl
  have hrow_fl := hrows fl hfl
  unfold search_suitable_block at h
  by_cases h0 : mread m (slBitmapAddr c fl) &&& maskGE sl = 0
  · rw [if_pos h0] at h
    by_cases h1 : mread m (flBitmapAddr c) &&& maskGE (fl + 1) = 0
    · rw [if_pos h1] at h
      obtain ⟨hf, hs⟩ := Prod.mk.injEq .. ▸ h
      obtain ⟨hs1, hb1⟩ := Prod.mk.injEq .. ▸ hs
      omega
    · rw [if_neg h1] at h
      have hflmap_lt : mread m (flBitmapAddr c) &&& maskGE (fl + 1) < 2 ^ 32 := by
        have hle : mread m (flBitmapAddr c) &&& maskGE (fl + 1) ≤
            mread m (flBitmapAddr c) := Nat.and_le_left
        have : (2:Nat) ^ FL_INDEX_COUNT < 2 ^ 32 := by decide
        omega
      obtain ⟨hbit1, _⟩ := tlsf_ffs_spec _ (Nat.pos_of_ne_zero h1) hflmap_lt
      set j := tlsf_ffs (mread m (flBitmapAddr c) &&& maskGE (fl + 1)) with hjdef
      have hbit_flw : (mread m (flBitmapAddr c)).testBit j = true := by
        rw [Nat.testBit_land] at hbit1
        exact (Bool.and_eq_true ..).mp hbit1 |>.1
      have hbit_mask : (maskGE (fl + 1)).testBit j = true := by
        rw [Nat.testBit_land] at hbit1
        exact (Bool.and_eq_true ..).mp hbit1 |>.2
      have hge : fl + 1 ≤ j := by
        rw [maskGE_eq_shift (fl + 1) (by omega), Nat.testBit_shiftLeft] at hbit_mask
        have := (Bool.and_eq_true ..).mp hbit_mask |>.1
        simpa using this
      have hlt4 : j < FL_INDEX_COUNT := by
        by_contra hcon
        have hple : (2:Nat) ^ FL_INDEX_COUNT ≤ 2 ^ j :=
          Nat.pow_le_pow_right (by decide) (by omega)
        have hfalse := Nat.testBit_lt_two_pow
          (x := mread m (flBitmapAddr c)) (i := j) (by omega)
        rw [hfalse] at hbit_flw
        exact Bool.noConfusion hbit_flw
      obtain ⟨hslw1_lt, hslw1_ne, _⟩ := hrows _ hlt4
      have hslw1_pos : 0 < mread m (slBitmapAddr c j) :=
        Nat.pos_of_ne_zero (hslw1_ne hbit_flw)
      obtain ⟨hbit2, hlt32⟩ := tlsf_ffs_spec _ hslw1_pos hslw1_lt
      obtain ⟨hf, hs⟩ := Prod.mk.injEq .. ▸ h
      obtain ⟨hs1, hb1⟩ := Prod.mk.injEq .. ▸ hs
      subst hf
      subst hs1
      refine ⟨hlt4, hlt32, hbit2, hb1.symm, Or.inr (by omega)⟩
  · rw [if_neg h0] at h
    have hslmap_lt : mread m (slBitmapAddr c fl) &&& maskGE sl < 2 ^ 32 := by
      have hle : mread m (slBitmapAddr c fl) &&& maskGE sl ≤
          mread m (slBitmapAddr c fl) := Nat.and_le_left
      omega
    obtain ⟨hbit1, hlt32⟩ := tlsf_ffs_spec _ (Nat.pos_of_ne_zero h0) hslmap_lt
    set j := tlsf_ffs (mread m (slBitmapAddr c fl) &&& maskGE sl) with hjdef
    have hbit_slw : (mread m (slBitmapAddr c fl)).testBit j = true := by
      rw [Nat.testBit_land] at hbit1
      exact (Bool.and_eq_true ..).mp hbit1 |>.1
    have hbit_mask : (maskGE sl).testBit j = true := by
      rw [Nat.testBit_land] at hbit1
      exact (Bool.and_eq_true ..).mp hbit1 |>.2
    have hge : sl ≤ j := by
      rw [maskGE_eq_shift sl (by omega), Nat.testBit_shiftLeft] at hbit_mask
      have := (Bool.and_eq_true ..).mp hbit_mask |>.1
      simpa using this
    obtain ⟨hf, hs⟩ := Prod.mk.injEq .. ▸ h
    obtain ⟨hs1, hb1⟩ := Prod.mk.injEq .. ▸ hs
    subst hf
    subst hs1
    exact ⟨hfl, hlt32, hbit_slw, hb1.symm, Or.inl ⟨rfl, hge⟩⟩

/-- `remove_free_block` only writes the unlinked neighbours' free-list words
and control-structure words; any address `x` beyond the control structure
that differs from those neighbour words is untouched. -/
theorem mread_remove_free_block (m : Mem) (c b fl sl x : Nat)
    (hfl : fl < FL_INDEX_COUNT) (hsl : sl < 32)
    (h1 : mread m (b + 8) + 12 ≠ x) (h2 : mread m (b + 12) + 8 ≠ x)
    (h3 : c + 548 ≤ x) :
    mread (remove_free_block m c b fl sl) x = mread m x := by
  have hFC : FL_INDEX_COUNT = 4 := rfl
  have hblocks : blocksAddr c fl sl < c + 548 := by
    have he : blocksAddr c fl sl = c + 36 + 4 * (32 * fl + sl) := rfl
    have h32 : 32 * fl ≤ 96 := by omega
    omega
  have hslb : slBitmapAddr c fl < c + 548 := by
    have : slBitmapAddr c fl = c + 20 + 4 * fl := rfl
    omega
  have hflb : flBitmapAddr c < c + 548 := by
    have : flBitmapAddr c = c + 16 := rfl
    omega
  unfold remove_free_block
  simp only []
  split
  · split
    · split
      · rw [mread_mwrite_ne _ _ _ _ (by omega), mread_mwrite_ne _ _ _ _ (by omega),
          mread_mwrite_ne _ _ _ _ (by omega),
          mread_mwrite_ne _ _ _ _ (fun he => h2 (by omega)),
          mread_mwrite_ne _ _ _ _ (fun he => h1 (by omega))]
      · rw [mread_mwrite_ne _ _ _ _ (by omega), mread_mwrite_ne _ _ _ _ (by omega),
          mread_mwrite_ne _ _ _ _ (fun he => h2 (by omega)),
          mread_mwrite_ne _ _ _ _ (fun he => h1 (by omega))]
    · rw [mread_mwrite_ne _ _ _ _ (by omega),
        mread_mwrite_ne _ _ _ _ (fun he => h2 (by omega)),
        mread_mwrite_ne _ _ _ _ (fun he => h1 (by omega))]
  · rw [mread_mwrite_ne _ _ _ _ (fun he => h2 (by omega)),
      mread_mwrite_ne _ _ _ _ (fun he => h1 (by omega))]

theorem mapping_insert_sl_lt (x : Nat) (hx : x < 2 ^ 32) : (mapping_insert x).2 < 32 := by
  by_cases h : x < 128
  · rw [mapping_insert_small x h]
    simpa using by omega
  · obtain ⟨he, hlo, hhi⟩ := mapping_insert_large x (by omega) hx
    rw [he]
    simp only []
    omega

theorem mapping_search_sl_lt (x : Nat) (hx : x < 1024) : (mapping_search x).2 < 32 := by
  unfold mapping_search
  by_cases h : x ≥ SMALL_BLOCK_SIZE
  · rw [if_pos h]
    apply mapping_insert_sl_lt
    have hsb : SMALL_BLOCK_SIZE = 128 := rfl
    have hfls : tlsf_fls x = Nat.log2 x := tlsf_fls_eq_log2 x (by omega)
    have hL9 : Nat.log2 x ≤ 9 := by
      have h10 : Nat.log2 x < 10 := by
        rw [Nat.log2_lt (by omega)]
        show x < 1024
        omega
      omega
    have hsh : (1 <<< (tlsf_fls x - SL_INDEX_COUNT_LOG2) : Nat) =
        2 ^ (tlsf_fls x - SL_INDEX_COUNT_LOG2) := by
      rw [Nat.shiftLeft_eq, one_mul]
    rw [hsh, hfls]
    have hle : (2:Nat) ^ (Nat.log2 x - SL_INDEX_COUNT_LOG2) ≤ 2 ^ 4 := by
      apply Nat.pow_le_pow_right (by decide)
      have h5 : SL_INDEX_COUNT_LOG2 = 5 := rfl
      omega
    have h16 : (2:Nat) ^ 4 = 16 := rfl
    have hlarge : (1040 : Nat) < 2 ^ 32 := by decide
    omega
  · rw [if_neg h]
    apply mapping_insert_sl_lt
    have hsb : SMALL_BLOCK_SIZE = 128 := rfl
    have hlarge : (128 : Nat) < 2 ^ 32 := by decide
    omega

/-- What a successful `block_locate_free` implies about the source heap …
the found block is the head of a set in-range list entry at least the
searched class, and the returned memory is that head's `remove_free_block`. -/
theorem block_locate_free_spec (m : Mem) (c size : Nat)
    (hwf : wfCheck m c = true) (hsz : size < 1024)
    (hb : (block_locate_free m c size).2 ≠ 0) :
    ∃ fl sl,
      fl < FL_INDEX_COUNT ∧ sl < 32 ∧
      (mread m (slBitmapAddr c fl)).testBit sl = true ∧
      (block_locate_free m c size).2 = mread m (blocksAddr c fl sl) ∧
      (block_locate_free m c size).1 =
        remove_free_block m c (mread m (blocksAddr c fl sl)) fl sl ∧
      ((fl = (mapping_search size).1 ∧ (mapping_search size).2 ≤ sl) ∨
        (mapping_search size).1 < fl) ∧
      size ≠ 0 := by
  unfold block_locate_free at hb ⊢
  by_cases hsz0 : size ≠ 0
  swap
  · simp only [hsz0, if_false] at hb
    exact absurd rfl hb
  rw [if_pos hsz0] at hb ⊢
  simp only [] at hb ⊢
  by_cases hflc : (mapping_search size).1 < FL_INDEX_COUNT
  swap
  · rw [if_neg hflc] at hb ⊢
    exact absurd rfl hb
  rw [if_pos hflc] at hb ⊢
  by_cases hfound : (search_suitable_block m c (mapping_search size).1
      (mapping_search size).2).2.2 ≠ 0
  swap
  · simp only [hfound, if_false] at hb
    exact absurd rfl hb
  rw [if_pos hfound] at hb ⊢
  obtain ⟨hlt4, hlt32, hbit, hbeq, hlex⟩ :=
    search_suitable_block_spec m c (mapping_search size).1 (mapping_search size).2
      (search_suitable_block m c (mapping_search size).1 (mapping_search size).2).1
      (search_suitable_block m c (mapping_search size).1 (mapping_search size).2).2.1
      (search_suitable_block m c (mapping_search size).1 (mapping_search size).2).2.2
      hwf hflc (mapping_search_sl_lt size hsz) rfl hfound
  refine ⟨(search_suitable_block m c (mapping_search size).1 (mapping_search size).2).1,
    (search_suitable_block m c (mapping_search size).1 (mapping_search size).2).2.1,
    hlt4, hlt32, hbit, ?_, ?_, ?_, hsz0⟩
  · exact hbeq
  · rw [← hbeq]
  · rcases hlex with ⟨he, hle⟩ | hlt
    · exact Or.inl ⟨he.symm ▸ rfl, hle⟩
    · exact Or.inr hlt

theorem align_up_eq_self (x a : Nat) (ha : 0 < a) (hd : a ∣ x) : align_up x a = x := by
  obtain ⟨q, rfl⟩ := hd
  unfold align_up
  have h1 : a * q + a - 1 = (a - 1) + a * q := by omega
  rw [h1, Nat.add_mul_div_left _ _ ha, Nat.div_eq_of_lt (by omega), Nat.zero_add,
    Nat.mul_comm]

theorem adjust_request_size_spec4 (size : Nat) :
    adjust_request_size size ALIGN_SIZE = 0 ∨
    (block_size_min ≤ adjust_request_size size ALIGN_SIZE ∧
      adjust_request_size size ALIGN_SIZE % 4 = 0 ∧
      adjust_request_size size ALIGN_SIZE < block_size_max) := by
  unfold adjust_request_size
  by_cases h0 : size ≠ 0
  swap
  · simp [h0]
  rw [if_pos h0]
  simp only []
  by_cases h1 : align_up size ALIGN_SIZE < block_size_max
  swap
  · simp [h1]
  rw [if_pos h1]
  right
  have hd : align_up size ALIGN_SIZE % 4 = 0 :=
    Nat.mod_eq_zero_of_dvd (dvd_align_up size ALIGN_SIZE)
  have hbm : block_size_max = 1024 := rfl
  have hbs : block_size_min = 12 := rfl
  refine ⟨by omega, by omega, by omega⟩

theorem adjust_request_size_spec_align (x a : Nat) (ha : 0 < a) (hx : 16 ≤ x) :
    adjust_request_size x a = 0 ∨
    (x ≤ adjust_request_size x a ∧ a ∣ adjust_request_size x a ∧
      adjust_request_size x a < block_size_max) := by
  unfold adjust_request_size
  rw [if_pos (by omega)]
  simp only []
  by_cases h1 : align_up x a < block_size_max
  swap
  · simp [h1]
  rw [if_pos h1]
  right
  have hge : x ≤ align_up x a := le_align_up x a ha
  have hbs : block_size_min = 12 := rfl
  have hmax : max (align_up x a) block_size_min = align_up x a := by omega
  rw [hmax]
  exact ⟨hge, dvd_align_up x a, h1⟩

theorem block_prepare_used_zero (m : Mem) (c size : Nat) :
    block_prepare_used m c 0 size = (m, 0) := by
  simp [block_prepare_used]

theorem block_prepare_used_snd (m : Mem) (c b size : Nat) (hb : b ≠ 0) :
    (block_prepare_used m c b size).2 = block_to_ptr b := by
  simp [block_prepare_used, hb]

theorem block_locate_free_zero (m : Mem) (c : Nat) :
    block_locate_free m c 0 = (m, 0) := by
  simp [block_locate_free]

theorem block_size_congr (m1 m2 : Mem) (b : Nat)
    (h : mread m1 (b + 4) = mread m2 (b + 4)) : block_size m1 b = block_size m2 b := by
  unfold block_size
  rw [h]

theorem block_trim_free_leading_snd (m : Mem) (c b size : Nat)
    (hcs : block_can_split m b size = true) (hsz : 8 ≤ size) :
    (block_trim_free_leading m c b size).2 = b + size := by
  unfold block_trim_free_leading
  rw [if_pos hcs]
  simp only [block_split]
  unfold block_to_ptr
  have hbo : block_header_overhead = 4 := rfl
  have hbs : block_start_offset = 8 := rfl
  omega

/-- Arithmetic of `os_tlsf_memalign`'s gap computation: starting from a
4-aligned payload pointer, the final gap (after the too-small-gap bump)
leaves the final address `align`-aligned and 4-aligned, and when non-zero
it is at least `gap_minimum = 16` and at most `12 + align`. -/
theorem memalign_gap2_spec (ptr a2 : Nat) (hk : ∃ k, 2 ≤ k ∧ a2 = 2 ^ k)
    (hptr : ptr % 4 = 0) :
    ∀ g2, g2 = (if (align_ptr ptr a2 - ptr) ≠ 0 ∧
        (align_ptr ptr a2 - ptr) < block_header_size then
        align_ptr (align_ptr ptr a2 +
          max (block_header_size - (align_ptr ptr a2 - ptr)) a2) a2
      else align_ptr ptr a2) - ptr →
    (ptr + g2) % a2 = 0 ∧ (ptr + g2) % 4 = 0 ∧ (g2 ≠ 0 → 16 ≤ g2 ∧ g2 ≤ 12 + a2) := by
  obtain ⟨k, hk2, rfl⟩ := hk
  have ha_pos : 0 < 2 ^ k := Nat.pos_pow_of_pos _ (by decide)
  have h4a : (4 : Nat) ∣ 2 ^ k := by
    have h42 : (4 : Nat) = 2 ^ 2 := rfl
    rw [h42]
    exact pow_dvd_pow 2 hk2
  have h2k4 : 2 ^ k % 4 = 0 := Nat.mod_eq_zero_of_dvd h4a
  have h_le : ptr ≤ align_ptr ptr (2 ^ k) := le_align_up ptr _ ha_pos
  have h_lt : align_ptr ptr (2 ^ k) < ptr + 2 ^ k := align_up_lt ptr _ ha_pos
  have h_dvd : 2 ^ k ∣ align_ptr ptr (2 ^ k) := dvd_align_up ptr _
  have h_al4 : align_ptr ptr (2 ^ k) % 4 = 0 :=
    Nat.mod_eq_zero_of_dvd (dvd_trans h4a h_dvd)
  have hbh : block_header_size = 16 := rfl
  intro g2 hg2
  by_cases hcond : (align_ptr ptr (2 ^ k) - ptr) ≠ 0 ∧
      (align_ptr ptr (2 ^ k) - ptr) < block_header_size
  · rw [if_pos hcond] at hg2
    obtain ⟨hne, hlt16⟩ := hcond
    by_cases hoff : block_header_size - (align_ptr ptr (2 ^ k) - ptr) ≤ 2 ^ k
    · have hmax : max (block_header_size - (align_ptr ptr (2 ^ k) - ptr)) (2 ^ k) =
          2 ^ k := by omega
      rw [hmax] at hg2
      have hdvd2 : 2 ^ k ∣ align_ptr ptr (2 ^ k) + 2 ^ k := dvd_add h_dvd dvd_rfl
      have heq : align_ptr (align_ptr ptr (2 ^ k) + 2 ^ k) (2 ^ k) =
          align_ptr ptr (2 ^ k) + 2 ^ k := align_up_eq_self _ _ ha_pos hdvd2
      rw [heq] at hg2
      have hsum : ptr + g2 = align_ptr ptr (2 ^ k) + 2 ^ k := by omega
      refine ⟨?_, ?_, fun _ => by omega⟩
      · rw [hsum]
        exact Nat.mod_eq_zero_of_dvd hdvd2
      · rw [hsum]
        omega
    · have hmax : max (block_header_size - (align_ptr ptr (2 ^ k) - ptr)) (2 ^ k) =
          block_header_size - (align_ptr ptr (2 ^ k) - ptr) := by omega
      rw [hmax] at hg2
      have harg : align_ptr ptr (2 ^ k) +
          (block_header_size - (align_ptr ptr (2 ^ k) - ptr)) = ptr + 16 := by omega
      rw [harg] at hg2
      have h_le2 : ptr + 16 ≤ align_ptr (ptr + 16) (2 ^ k) := le_align_up _ _ ha_pos
      have h_lt2 : align_ptr (ptr + 16) (2 ^ k) < ptr + 16 + 2 ^ k := align_up_lt _ _ ha_pos
      have h_dvd2 : 2 ^ k ∣ align_ptr (ptr + 16) (2 ^ k) := dvd_align_up _ _
      have h_a24 : align_ptr (ptr + 16) (2 ^ k) % 4 = 0 :=
        Nat.mod_eq_zero_of_dvd (dvd_trans h4a h_dvd2)
      have hsum : ptr + g2 = align_ptr (ptr + 16) (2 ^ k) := by omega
      refine ⟨?_, ?_, fun _ => by omega⟩
      · rw [hsum]
        exact Nat.mod_eq_zero_of_dvd h_dvd2
      · rw [hsum]
        exact h_a24
  · rw [if_neg hcond] at hg2
    have hsum : ptr + g2 = align_ptr ptr (2 ^ k) := by omega
    refine ⟨?_, ?_, ?_⟩
    · rw [hsum]
      exact Nat.mod_eq_zero_of_dvd h_dvd
    · rw [hsum]
      exact h_al4
    · intro hne
      have h16 : ¬ (align_ptr ptr (2 ^ k) - ptr < block_header_size) := fun hh =>
        hcond ⟨by omega, hh⟩
      omega

theorem os_tlsf_malloc_aligned (m : Mem) (c size : Nat) (hwf : wfCheck m c = true)
    (hp : (os_tlsf_malloc m c size).2 ≠ 0) : (os_tlsf_malloc m c size).2 % 4 = 0 := by
  unfold os_tlsf_malloc at hp ⊢
  simp only [] at hp ⊢
  have hbm : block_size_max = 1024 := rfl
  have hlt : adjust_request_size size ALIGN_SIZE < 1024 := by
    rcases adjust_request_size_spec4 size with h | ⟨_, _, h⟩ <;> omega
  by_cases hb : (block_locate_free m c (adjust_request_size size ALIGN_SIZE)).2 ≠ 0
  swap
  · push_neg at hb
    rw [hb, block_prepare_used_zero] at hp
    exact absurd rfl hp
  · obtain ⟨fl, sl, hfl, hsl, hbit, hbeq, hmeq, hlex, hsz0⟩ :=
      block_locate_free_spec m c _ hwf hlt hb
    have hS : SL_INDEX_COUNT = 32 := rfl
    have hhead := headOK_spec m c fl sl
      ((wfCheck_spec m c hwf).2.2 fl hfl |>.2.2 sl (by omega) hbit)
    rw [block_prepare_used_snd _ _ _ _ hb, hbeq]
    unfold block_to_ptr
    have hso : block_start_offset = 8 := rfl
    have h4 := hhead.1
    omega

theorem os_tlsf_memalign_aligned (m : Mem) (c k size : Nat) (hwf : wfCheck m c = true)
    (hk : 2 ≤ k) (hp : (os_tlsf_memalign m c (2 ^ k) size).2 ≠ 0) :
    (os_tlsf_memalign m c (2 ^ k) size).2 % 2 ^ k = 0 ∧
    (os_tlsf_memalign m c (2 ^ k) size).2 % 4 = 0 := by
  have hbm : block_size_max = 1024 := rfl
  have hA4 : ALIGN_SIZE = 4 := rfl
  have hbh : block_header_size = 16 := rfl
  have hS : SL_INDEX_COUNT = 32 := rfl
  have hso : block_start_offset = 8 := rfl
  have h4a : (4 : Nat) ∣ 2 ^ k := by
    have h42 : (4 : Nat) = 2 ^ 2 := rfl
    rw [h42]
    exact pow_dvd_pow 2 hk
  unfold os_tlsf_memalign at hp ⊢
  simp only [] at hp ⊢
  set adj := adjust_request_size size ALIGN_SIZE with hadjdef
  set AS := if adj ≠ 0 ∧ 2 ^ k > ALIGN_SIZE then
      adjust_request_size (adj + 2 ^ k + block_header_size) (2 ^ k)
    else adj with hASdef
  have hASlt : AS < 1024 := by
    rw [hASdef]
    split
    · rcases adjust_request_size_spec_align (adj + 2 ^ k + block_header_size) (2 ^ k)
        (Nat.pos_pow_of_pos _ (by decide)) (by omega) with h | ⟨_, _, h⟩ <;> omega
    · rcases adjust_request_size_spec4 size with h | ⟨_, _, h⟩ <;> omega
  by_cases hb : (block_locate_free m c AS).2 ≠ 0
  swap
  · rw [if_neg hb] at hp
    push_neg at hb
    rw [hb, block_prepare_used_zero] at hp
    exact (hp rfl).elim
  rw [if_pos hb] at hp ⊢
  obtain ⟨fl, sl, hfl, hsl, hbit, hbeq, hmeq, hlex, hAS0⟩ :=
    block_locate_free_spec m c AS hwf hASlt hb
  have hhead := headOK_spec m c fl sl
    ((wfCheck_spec m c hwf).2.2 fl hfl |>.2.2 sl (by omega) hbit)
  rw [← hbeq] at hhead
  obtain ⟨hb4, hbge, hbs32, hbmap, hnf, hpf⟩ := hhead
  have hptr4 : block_to_ptr (block_locate_free m c AS).2 % 4 = 0 := by
    unfold block_to_ptr
    omega
  have hgap := memalign_gap2_spec (block_to_ptr (block_locate_free m c AS).2) (2 ^ k)
    ⟨k, hk, rfl⟩ hptr4
  set b := (block_locate_free m c AS).2 with hbdef
  set m2 := (block_locate_free m c AS).1 with hm2def
  set G2 := (if (align_ptr (block_to_ptr b) (2 ^ k) - block_to_ptr b) ≠ 0 ∧
      (align_ptr (block_to_ptr b) (2 ^ k) - block_to_ptr b) < block_header_size then
      align_ptr (align_ptr (block_to_ptr b) (2 ^ k) +
        max (block_header_size - (align_ptr (block_to_ptr b) (2 ^ k) - block_to_ptr b))
          (2 ^ k)) (2 ^ k)
    else align_ptr (block_to_ptr b) (2 ^ k)) - block_to_ptr b with hG2def
  obtain ⟨hmodA, hmod4, hgb⟩ := hgap G2 hG2def
  by_cases hg2 : G2 ≠ 0
  swap
  · rw [if_neg hg2] at hp ⊢
    push_neg at hg2
    rw [hg2, Nat.add_zero] at hmodA hmod4
    rw [block_prepare_used_snd _ _ _ _ hb]
    exact ⟨hmodA, hmod4⟩
  · rw [if_pos hg2] at hp ⊢
    obtain ⟨hg16, hgle⟩ := hgb hg2
    have hcond : adj ≠ 0 ∧ 2 ^ k > ALIGN_SIZE := by
      by_contra hc
      have hASadj : AS = adj := by
        rw [hASdef, if_neg hc]
      by_cases hadj0 : adj = 0
      · rw [hbdef, hASadj, hadj0, block_locate_free_zero] at hb
        exact hb rfl
      · have hkk : k = 2 := by
          have h1 : 2 ^ k ≤ ALIGN_SIZE := by
            by_contra hc2
            exact hc ⟨hadj0, by omega⟩
          have h2 : (2 : Nat) ^ 2 ≤ 2 ^ k := Nat.pow_le_pow_right (by decide) hk
          have h3 : k < 3 := by
            by_contra hc3
            have h8 : (2 : Nat) ^ 3 ≤ 2 ^ k := Nat.pow_le_pow_right (by decide) (by omega)
            omega
          omega
        subst hkk
        have hdv : (2 ^ 2 : Nat) ∣ block_to_ptr b := by
          have h44 : (2 ^ 2 : Nat) = 4 := rfl
          omega
        have hfix : align_ptr (block_to_ptr b) (2 ^ 2) = block_to_ptr b :=
          align_up_eq_self _ _ (by decide) hdv
        have hzero : G2 = 0 := by
          rw [hG2def, hfix]
          rw [if_neg (by simp)]
          omega
        exact hg2 hzero
    have hASswg : AS = adjust_request_size (adj + 2 ^ k + block_header_size) (2 ^ k) := by
      rw [hASdef, if_pos hcond]
    rcases adjust_request_size_spec_align (adj + 2 ^ k + block_header_size) (2 ^ k)
        (Nat.pos_pow_of_pos _ (by decide)) (by omega) with hz | ⟨hge, hdvd, _⟩
    · rw [hbdef, hASswg, hz, block_locate_free_zero] at hb
      exact (hb rfl).elim
    · have hadjge : 12 ≤ adj := by
        rcases adjust_request_size_spec4 size with h | ⟨h12, _, _⟩
        · exact absurd h hcond.1
        · have hmin : block_size_min = 12 := rfl
          omega
      have hAS4 : AS % 4 = 0 := by
        rw [hASswg]
        exact Nat.mod_eq_zero_of_dvd (dvd_trans h4a hdvd)
      have hguar : AS ≤ block_size m b :=
        mapping_search_guarantee AS (block_size m b)
          (mapping_search AS).1 (mapping_search AS).2 fl sl hAS4 (by omega) hASlt hbs32
          rfl hbmap
          (by rcases hlex with ⟨he, hle⟩ | hlt
              · exact Or.inl ⟨by omega, hle⟩
              · exact Or.inr hlt)
      rw [hbeq] at hnf hpf
      have hpres : block_size m2 b = block_size m b := by
        rw [hmeq, hbeq]
        exact block_size_congr _ _ _ (mread_remove_free_block m c
          (mread m (blocksAddr c fl sl)) fl sl (mread m (blocksAddr c fl sl) + 4)
          hfl hsl hnf hpf (by omega))
      have hcansplit : block_can_split m2 b G2 = true := by
        unfold block_can_split
        rw [hpres]
        simp only [decide_eq_true_eq, ge_iff_le]
        omega
      rw [block_prepare_used_snd _ _ _ _ ?hne]
      case hne =>
        rw [block_trim_free_leading_snd _ _ _ _ hcansplit (by omega)]
        omega
      rw [block_trim_free_leading_snd _ _ _ _ hcansplit (by omega)]
      have heq : block_to_ptr (b + G2) = block_to_ptr b + G2 := by
        unfold block_to_ptr
        omega
      rw [heq]
      exact ⟨hmodA, hmod4⟩

/-- Claim C4: every non-null pointer returned by `os_tlsf_malloc` is a multiple of
ALIGN_SIZE (4 bytes), and for every power-of-two alignment `2^k ≥ ALIGN_SIZE`
(i.e. `k ≥ 2`) and every size, a non-null pointer returned by `os_tlsf_memalign`
is additionally a multiple of `2^k` (this covers the case where the leading gap
is non-zero but smaller than `sizeof(block_header_t)` and the aligned address is
pushed forward), under the free-list well-formedness predicate `wfCheck`. -/
theorem C4_alignment (m : Mem) (c k size : Nat) (hwf : wfCheck m c = true) (hk : 2 ≤ k) :
    ((os_tlsf_malloc m c size).2 ≠ 0 → (os_tlsf_malloc m c size).2 % ALIGN_SIZE = 0) ∧
    ((os_tlsf_memalign m c (2 ^ k) size).2 ≠ 0 →
      (os_tlsf_memalign m c (2 ^ k) size).2 % 2 ^ k = 0 ∧
      (os_tlsf_memalign m c (2 ^ k) size).2 % ALIGN_SIZE = 0) := by
  have hA : ALIGN_SIZE = 4 := rfl
  refine ⟨fun hp => ?_, fun hp => ?_⟩
  · rw [hA]
    exact os_tlsf_malloc_aligned m c size hwf hp
  · rw [hA]
    exact os_tlsf_memalign_aligned m c k size hwf hk hp

/-- Witness for C4 on the freshly created heap: `wfCheck` holds, a concrete
malloc returns the 4-aligned pointer 4648, and a concrete memalign with
alignment 16 returns a 16-aligned pointer. -/
theorem C4_alignment_witness :
    wfCheck freshMem workMemBase = true ∧ 2 ≤ 4 ∧
    ((os_tlsf_malloc freshMem workMemBase 64).2 ≠ 0 →
      (os_tlsf_malloc freshMem workMemBase 64).2 % ALIGN_SIZE = 0) ∧
    ((os_tlsf_memalign freshMem workMemBase (2 ^ 4) 40).2 ≠ 0 →
      (os_tlsf_memalign freshMem workMemBase (2 ^ 4) 40).2 % 2 ^ 4 = 0 ∧
      (os_tlsf_memalign freshMem workMemBase (2 ^ 4) 40).2 % ALIGN_SIZE = 0) :=
  ⟨by decide, by decide,
    (C4_alignment freshMem workMemBase 4 64 (by decide) (by decide)).1,
    (C4_alignment freshMem workMemBase 4 40 (by decide) (by decide)).2⟩

/-!  Timer subsystem: os_hal_tick.c and the os_timer part of os_ll.h.  -/

/-- `UINT32_MAX` from the C library. -/
def UINT32_MAX : Nat := 4294967295

/-- A timer record (`os_timer_t`).  The callback pointer is abstracted to the
Boolean `has_cb` (callbacks are treated as opaque and benign: they do not call
back into the timer or tick API).  `tid` is a ghost identity used to track a
timer through the list and in the ghost fire log. -/
structure OsTimer where
  tid : Nat
  period : Nat
  last_run : Nat
  repeat_count : Int
  paused : Bool
  has_cb : Bool
deriving DecidableEq, Repr

/-- Global timer-system state: `sys_time` from os_hal_tick.c, the timer linked
list `_os_timer_ll` as a list (head first, as `_os_ll_ins_head` prepends and
the handler iterates head to tail), plus a ghost log `fires` of callback
invocations `(tid, tick at invocation)`. -/
structure TimerSys where
  sys_time : Nat
  timers : List OsTimer
  fires : List (Nat × Nat)
deriving DecidableEq, Repr

/-- `os_tick_inc(tick_period)`: `sys_time += tick_period` with u32 wrap. -/
def os_tick_inc (st : TimerSys) (tick_period : Nat) : TimerSys :=
  { st with sys_time := (st.sys_time + tick_period) % 2 ^ 32 }

/-- `os_tick_get()`: the flag loop terminates at once in a single-threaded
run and returns `sys_time`. -/
def os_tick_get (st : TimerSys) : Nat :=
  st.sys_time

/-- `os_tick_elaps(prev_tick)` with the current tick passed explicitly:
simple subtraction, or the u32 wrap-around branch
`UINT32_MAX - prev_tick + 1 + act_time`. -/
def os_tick_elaps (act_time prev_tick : Nat) : Nat :=
  if prev_tick ≤ act_time then act_time - prev_tick
  else UINT32_MAX - prev_tick + 1 + act_time

/-- `os_timer_time_remaining`: 0 once at least `period` ticks elapsed since
`last_run`. -/
def os_timer_time_remaining (now : Nat) (timer : OsTimer) : Nat :=
  let elp := os_tick_elaps now timer.last_run
  if timer.period ≤ elp then 0 else timer.period - elp

/-- `os_timer_exec` from os_ll.h.  Returns
`(exec, the timer after the call if it is still in the list, callback fired)`.
`timer_deleted` is the global flag as read by the final deletion check (when it
is already `true`, the `repeat_count == 0` deletion is skipped).  The C locals
are inlined: when the timer is ready, `repeat_count` is decremented (if
positive) before the callback, `last_run` is set to the current tick, and the
callback fires iff a callback is installed and the original repeat count was
nonzero; afterwards the timer is deleted iff `timer_deleted` is still `false`
and the (updated) repeat count is 0.  A paused timer returns `false`
immediately, before the deletion check. -/
def os_timer_exec (now : Nat) (timer_deleted : Bool) (timer : OsTimer) :
    Bool × Option OsTimer × Bool :=
  if timer.paused then (false, some timer, false)
  else if os_timer_time_remaining now timer = 0 then
    if 0 < timer.repeat_count then
      if timer_deleted = false ∧ timer.repeat_count - 1 = 0 then
        (true, none, timer.has_cb && decide (timer.repeat_count ≠ 0))
      else
        (true, some { timer with repeat_count := timer.repeat_count - 1, last_run := now },
          timer.has_cb && decide (timer.repeat_count ≠ 0))
    else
      if timer_deleted = false ∧ timer.repeat_count = 0 then
        (true, none, timer.has_cb && decide (timer.repeat_count ≠ 0))
      else
        (true, some { timer with last_run := now },
          timer.has_cb && decide (timer.repeat_count ≠ 0))
  else
    if timer_deleted = false ∧ timer.repeat_count = 0 then (false, none, false)
    else (false, some timer, false)

/-- One pass of the inner `while(_os_timer_act)` loop of `os_timer_handler`:
run `os_timer_exec` on each timer in order; if a timer executed while the
`timer_deleted` flag is set, break (the saved `_os_timer_act` is non-NULL, so
the outer do-while repeats).  Callbacks are benign, so `timer_created` stays
`false` and `timer_deleted` is set exactly by deletions inside
`os_timer_exec`.  Returns the remaining list, whether the loop broke, and the
ghost fire log of the pass. -/
def os_timer_handler_pass (now : Nat) (timer_deleted : Bool) :
    List OsTimer → List OsTimer × Bool × List (Nat × Nat)
  | [] => ([], false, [])
  | t :: rest =>
    let r := os_timer_exec now timer_deleted t
    let td2 := timer_deleted || r.2.1.isNone
    let fl : List (Nat × Nat) := if r.2.2 then [(t.tid, now)] else []
    if r.1 && td2 then
      (r.2.1.toList ++ rest, true, fl)
    else
      let q := os_timer_handler_pass now td2 rest
      (r.2.1.toList ++ q.1, q.2.1, fl ++ q.2.2)

/-- The outer do-while of `os_timer_handler`: repeat passes while the inner
loop broke with a non-NULL current timer.  Every repeating pass deletes at
least one timer, so `timers.length + 1` passes always suffice; the fuel makes
the recursion structural. -/
def os_timer_handler_aux (now : Nat) :
    Nat → List OsTimer → List (Nat × Nat) → List OsTimer × List (Nat × Nat)
  | 0, ts, log => (ts, log)
  | fuel + 1, ts, log =>
    let q := os_timer_handler_pass now false ts
    if q.2.1 then os_timer_handler_aux now fuel q.1 (log ++ q.2.2)
    else (q.1, log ++ q.2.2)

/-- `os_timer_handler()` with the timer handling enabled
(`os_timer_run = true`, not re-entered): run passes over the list until no
break occurs.  The idle-statistics bookkeeping at the end does not touch the
timers and is omitted from the state. -/
def os_timer_handler (st : TimerSys) : TimerSys :=
  let q := os_timer_handler_aux st.sys_time (st.timers.length + 1) st.timers st.fires
  { st with timers := q.1, fires := q.2 }

/-- An application-visible step: either a tick interrupt or a handler call. -/
inductive TimerOp where
  | tick_inc (tick_period : Nat)
  | handler
deriving DecidableEq, Repr

def runTimerOp (st : TimerSys) : TimerOp → TimerSys
  | .tick_inc p => os_tick_inc st p
  | .handler => os_timer_handler st

def runTimerOps (ops : List TimerOp) (st : TimerSys) : TimerSys :=
  ops.foldl runTimerOp st

/-- The ghost fire-log entries of the timer with identity `i`. -/
def firesOf (i : Nat) (log : List (Nat × Nat)) : List (Nat × Nat) :=
  log.filter (fun e => e.1 = i)

theorem os_timer_exec_paused (now : Nat) (td : Bool) (t : OsTimer) (h : t.paused = true) :
    os_timer_exec now td t = (false, some t, false) := by
  unfold os_timer_exec
  rw [if_pos h]

theorem os_timer_exec_not_ready (now : Nat) (td : Bool) (t : OsTimer)
    (hp : t.paused = false) (hr : os_timer_time_remaining now t ≠ 0) :
    os_timer_exec now td t =
      if td = false ∧ t.repeat_count = 0 then (false, none, false)
      else (false, some t, false) := by
  unfold os_timer_exec
  rw [if_neg (by rw [hp]; exact Bool.false_ne_true), if_neg hr]

theorem os_timer_exec_fire (now : Nat) (td : Bool) (t : OsTimer)
    (hp : t.paused = false) (hcb : t.has_cb = true)
    (hr : os_timer_time_remaining now t = 0) (hrc : 0 < t.repeat_count) :
    os_timer_exec now td t =
      if td = false ∧ t.repeat_count - 1 = 0 then (true, none, true)
      else (true, some { t with repeat_count := t.repeat_count - 1, last_run := now }, true) := by
  unfold os_timer_exec
  rw [if_neg (by rw [hp]; exact Bool.false_ne_true), if_pos hr, if_pos hrc, hcb,
    decide_eq_true (by omega : t.repeat_count ≠ 0), Bool.and_self]

theorem os_timer_exec_expired (now : Nat) (td : Bool) (t : OsTimer)
    (hp : t.paused = false)
    (hr : os_timer_time_remaining now t = 0) (hrc : t.repeat_count = 0) :
    os_timer_exec now td t =
      if td = false then (true, none, false)
      else (true, some { t with last_run := now }, false) := by
  unfold os_timer_exec
  rw [if_neg (by rw [hp]; exact Bool.false_ne_true), if_pos hr,
    if_neg (by omega : ¬ 0 < t.repeat_count)]
  have hd : decide (t.repeat_count ≠ 0) = false := by
    simp [hrc]
  rw [hd, Bool.and_false]
  by_cases htd : td = false
  · rw [if_pos ⟨htd, hrc⟩, if_pos htd]
  · rw [if_neg (by tauto), if_neg htd]

theorem os_timer_exec_kept (now : Nat) (td : Bool) (t t' : OsTimer)
    (h : (os_timer_exec now td t).2.1 = some t') :
    t'.tid = t.tid ∧ t'.period = t.period ∧ t'.paused = t.paused ∧ t'.has_cb = t.has_cb := by
  unfold os_timer_exec at h
  split_ifs at h <;> simp only [Option.some.injEq] at h <;> subst h <;>
    exact ⟨rfl, rfl, rfl, rfl⟩

theorem os_timer_exec_deleted (now : Nat) (td : Bool) (t : OsTimer)
    (h : (os_timer_exec now td t).2.1 = none) :
    t.paused = false ∧ td = false ∧
      (t.repeat_count = 0 ∨ (t.repeat_count = 1 ∧ os_timer_time_remaining now t = 0)) := by
  unfold os_timer_exec at h
  split_ifs at h with h1 h2 h3 h4 h5 h6
  · exact ⟨by revert h1; cases t.paused <;> simp, h4.1, Or.inr ⟨by omega, h2⟩⟩
  · exact ⟨by revert h1; cases t.paused <;> simp, h5.1, Or.inl h5.2⟩
  · exact ⟨by revert h1; cases t.paused <;> simp, h6.1, Or.inl h6.2⟩

theorem os_timer_time_remaining_eq_zero (now : Nat) (t : OsTimer) :
    os_timer_time_remaining now t = 0 ↔ t.period ≤ os_tick_elaps now t.last_run := by
  unfold os_timer_time_remaining
  show (if t.period ≤ os_tick_elaps now t.last_run then 0
    else t.period - os_tick_elaps now t.last_run) = 0 ↔ _
  split <;> rename_i h
  · simp [h]
  · constructor
    · intro hz
      omega
    · intro hle
      exact absurd hle h

theorem firesOf_nil (i : Nat) : firesOf i [] = [] := rfl

theorem firesOf_append (i : Nat) (l1 l2 : List (Nat × Nat)) :
    firesOf i (l1 ++ l2) = firesOf i l1 ++ firesOf i l2 := by
  simp [firesOf]

theorem firesOf_single_ne (i j now : Nat) (h : j ≠ i) : firesOf i [(j, now)] = [] := by
  simp [firesOf, h]

theorem firesOf_single_eq (i now : Nat) : firesOf i [(i, now)] = [(i, now)] := by
  simp [firesOf]

/-- If no timer in the list has identity `i`, a handler pass logs no fire of
`i` and leaves no timer of identity `i` in the list. -/
theorem os_timer_handler_pass_no_i (i now : Nat) :
    ∀ (ts : List OsTimer) (td : Bool), (∀ t ∈ ts, t.tid ≠ i) →
      firesOf i (os_timer_handler_pass now td ts).2.2 = [] ∧
      ∀ t' ∈ (os_timer_handler_pass now td ts).1, t'.tid ≠ i
  | [], td, h => by
    simp [os_timer_handler_pass, firesOf_nil]
  | t :: rest, td, h => by
    have hti : t.tid ≠ i := h t (by simp)
    have hkept : ∀ t' ∈ (os_timer_exec now td t).2.1.toList, t'.tid ≠ i := by
      intro t' ht'
      cases hk : (os_timer_exec now td t).2.1 with
      | none => rw [hk] at ht'; cases ht'
      | some u =>
        rw [hk] at ht'
        simp only [Option.toList_some, List.mem_singleton] at ht'
        rw [ht', (os_timer_exec_kept now td t u hk).1]
        exact hti
    have hfl : firesOf i (if (os_timer_exec now td t).2.2 then [(t.tid, now)] else []) = [] := by
      split
      · exact firesOf_single_ne i t.tid now hti
      · rfl
    simp only [os_timer_handler_pass]
    split
    · refine ⟨hfl, ?_⟩
      intro t' ht'
      rcases List.mem_append.1 ht' with hin | hin
      · exact hkept t' hin
      · exact h t' (List.mem_cons_of_mem _ hin)
    · have hrec := os_timer_handler_pass_no_i i now rest
        (td || (os_timer_exec now td t).2.1.isNone)
        (fun u hu => h u (List.mem_cons_of_mem _ hu))
      refine ⟨?_, ?_⟩
      · rw [firesOf_append, hfl, hrec.1]
        rfl
      · intro t' ht'
        rcases List.mem_append.1 ht' with hin | hin
        · exact hkept t' hin
        · exact hrec.2 t' hin

/-- A handler pass only removes timers: the identity sequence of the output
list is a sublist of the input's. -/
theorem os_timer_handler_pass_tids_sublist (now : Nat) :
    ∀ (ts : List OsTimer) (td : Bool),
      ((os_timer_handler_pass now td ts).1.map OsTimer.tid).Sublist
        (ts.map OsTimer.tid)
  | [], td => by simp [os_timer_handler_pass]
  | t :: rest, td => by
    have hkept : ∀ u ∈ (os_timer_exec now td t).2.1.toList, u.tid = t.tid := by
      intro u hu
      cases hk : (os_timer_exec now td t).2.1 with
      | none => rw [hk] at hu; cases hu
      | some v =>
        rw [hk] at hu
        simp only [Option.toList_some, List.mem_singleton] at hu
        subst hu
        exact (os_timer_exec_kept now td t u hk).1
    simp only [os_timer_handler_pass]
    split
    · cases hk : (os_timer_exec now td t).2.1 with
      | none =>
        dsimp only
        simp only [Option.toList_none, List.nil_append, List.map_cons]
        exact (List.sublist_cons_self _ _).trans (List.Sublist.refl _) |>.trans
          (List.Sublist.refl _) |>.trans (List.Sublist.refl _)
      | some v =>
        dsimp only
        simp only [Option.toList_some, List.singleton_append, List.map_cons]
        rw [(os_timer_exec_kept now td t v hk).1]
    · have hrec := os_timer_handler_pass_tids_sublist now rest
        (td || (os_timer_exec now td t).2.1.isNone)
      cases hk : (os_timer_exec now td t).2.1 with
      | none =>
        dsimp only
        simp only [Option.toList_none, List.nil_append, List.map_cons]
        rw [hk] at hrec
        exact hrec.trans (List.sublist_cons_self _ _)
      | some v =>
        dsimp only
        simp only [Option.toList_some, List.singleton_append, List.map_cons]
        rw [(os_timer_exec_kept now td t v hk).1]
        rw [hk] at hrec
        exact List.Sublist.cons₂ _ hrec

theorem os_timer_exec_mem_toList (now : Nat) (td : Bool) (t u : OsTimer)
    (hu : u ∈ (os_timer_exec now td t).2.1.toList) : u.tid = t.tid := by
  cases hk : (os_timer_exec now td t).2.1 with
  | none => rw [hk] at hu; cases hu
  | some v =>
    rw [hk] at hu
    simp only [Option.toList_some, List.mem_singleton] at hu
    rw [hu]
    exact (os_timer_exec_kept now td t v hk).1

/-- Invariant carried for the timer of identity `i` with period `P` and
initial repeat count `k`: after `cnt` callback invocations, its repeat count
is `k - cnt`, and (while more invocations are to come) its `last_run` is the
tick `lw` recorded at the most recent invocation. -/
def timerInv (i P k cnt lw : Nat) (t : OsTimer) : Prop :=
  t.tid = i → (t.period = P ∧ t.has_cb = true ∧ t.paused = false ∧
    t.repeat_count = (k : Int) - (cnt : Int) ∧
    (0 < cnt → cnt < k → t.last_run = lw))

/-- One handler pass over a list whose timer of identity `i` satisfies
`timerInv`: either no `i`-fire is logged and the invariant is unchanged, or
exactly one `i`-fire at the current tick is logged, the invocation count was
still below `k`, the fire is at least `P` ticks after the previous one, and
the invariant advances to `cnt + 1` invocations at tick `now`. -/
theorem os_timer_handler_pass_spec (i P k now cnt lw : Nat) (hcnt : cnt ≤ k) :
    ∀ (ts : List OsTimer) (td : Bool),
      (ts.map OsTimer.tid).Nodup →
      (∀ t ∈ ts, timerInv i P k cnt lw t) →
      ((firesOf i (os_timer_handler_pass now td ts).2.2 = [] ∧
          ∀ t ∈ (os_timer_handler_pass now td ts).1, timerInv i P k cnt lw t) ∨
        (firesOf i (os_timer_handler_pass now td ts).2.2 = [(i, now)] ∧ cnt < k ∧
          (0 < cnt → P ≤ os_tick_elaps now lw) ∧
          ∀ t ∈ (os_timer_handler_pass now td ts).1, timerInv i P k (cnt + 1) now t))
  | [], td, _, _ => Or.inl ⟨rfl, by intro t ht; cases ht⟩
  | t :: rest, td, hnodup, hinv => by
    have hnodup' : (rest.map OsTimer.tid).Nodup := (List.nodup_cons.1 (by simpa using hnodup)).2
    have hnotin : t.tid ∉ rest.map OsTimer.tid := (List.nodup_cons.1 (by simpa using hnodup)).1
    have hinv' : ∀ u ∈ rest, timerInv i P k cnt lw u :=
      fun u hu => hinv u (List.mem_cons_of_mem _ hu)
    by_cases hti : t.tid = i
    · obtain ⟨hper, hcb, hpaus, hrc, hlink⟩ := hinv t (List.mem_cons_self t rest) hti
      have hrest_ne : ∀ u ∈ rest, u.tid ≠ i := by
        intro u hu he
        exact hnotin (by rw [hti, ← he]; exact List.mem_map_of_mem _ hu)
      by_cases hready : os_timer_time_remaining now t = 0
      · by_cases hpos : 0 < t.repeat_count
        · -- the timer fires
          have hcltk : cnt < k := by omega
          have hspace : 0 < cnt → P ≤ os_tick_elaps now lw := by
            intro hc
            rw [← hper, ← hlink hc hcltk]
            exact (os_timer_time_remaining_eq_zero now t).1 hready
          have hex := os_timer_exec_fire now td t hpaus hcb hready hpos
          by_cases hdel : td = false ∧ t.repeat_count - 1 = 0
          · rw [if_pos hdel] at hex
            refine Or.inr ⟨?_, hcltk, hspace, ?_⟩
            · simp [os_timer_handler_pass, hex, hti, firesOf_single_eq]
            · simp only [os_timer_handler_pass, hex]
              simp only [Option.isNone_none, Bool.or_true, Bool.and_self, if_true,
                Option.toList_none, List.nil_append]
              intro u hu he
              exact absurd he (hrest_ne u hu)
          · rw [if_neg hdel] at hex
            by_cases htd : td = true
            · -- break with the updated timer kept
              subst htd
              refine Or.inr ⟨?_, hcltk, hspace, ?_⟩
              · simp [os_timer_handler_pass, hex, hti, firesOf_single_eq]
              · simp only [os_timer_handler_pass, hex]
                simp only [Option.isNone_some, Bool.or_false, Bool.and_self, if_true,
                  Option.toList_some, List.singleton_append]
                intro u hu
                rcases List.mem_cons.1 hu with hu | hu
                · intro _
                  subst hu
                  exact ⟨hper, hcb, hpaus, by simp; omega, fun _ _ => rfl⟩
                · intro he
                  exact absurd he (hrest_ne u hu)
            · -- no break: continue over a rest without the identity i
              have htdf : td = false := by revert htd; cases td <;> simp
              subst htdf
              have hno := os_timer_handler_pass_no_i i now rest false hrest_ne
              refine Or.inr ⟨?_, hcltk, hspace, ?_⟩
              · simp only [os_timer_handler_pass, hex]
                simp only [Option.isNone_some, Bool.or_false, Bool.and_false,
                  Bool.false_eq_true, if_false]
                rw [firesOf_append, hno.1]
                simp [hti, firesOf_single_eq]
              · simp only [os_timer_handler_pass, hex]
                simp only [Option.isNone_some, Bool.or_false, Bool.and_false,
                  Bool.false_eq_true, if_false, Option.toList_some, List.singleton_append]
                intro u hu
                rcases List.mem_cons.1 hu with hu | hu
                · intro _
                  subst hu
                  exact ⟨hper, hcb, hpaus, by simp; omega, fun _ _ => rfl⟩
                · intro he
                  exact absurd he (hno.2 u hu)
        · -- repeat count exhausted: no fire, the timer is deleted or refreshed
          have hrc0 : t.repeat_count = 0 := by omega
          have hcek : cnt = k := by omega
          have hex := os_timer_exec_expired now td t hpaus hready hrc0
          by_cases htd : td = false
          · subst htd
            rw [if_pos rfl] at hex
            refine Or.inl ⟨?_, ?_⟩
            · simp [os_timer_handler_pass, hex, firesOf_nil]
            · simp only [os_timer_handler_pass, hex]
              simp only [Option.isNone_none, Bool.or_true, Bool.and_self, if_true,
                Option.toList_none, List.nil_append]
              exact hinv'
          · have htdt : td = true := by revert htd; cases td <;> simp
            subst htdt
            rw [if_neg (by simp)] at hex
            refine Or.inl ⟨?_, ?_⟩
            · simp [os_timer_handler_pass, hex, firesOf_nil]
            · simp only [os_timer_handler_pass, hex]
              simp only [Option.isNone_some, Bool.or_false, Bool.and_self, if_true,
                Option.toList_some, List.singleton_append]
              intro u hu
              rcases List.mem_cons.1 hu with hu | hu
              · intro _
                subst hu
                exact ⟨hper, hcb, hpaus, by simpa using hrc, fun h1 h2 => absurd h2 (by omega)⟩
              · exact hinv' u hu
      · -- not ready: no execution
        have hex := os_timer_exec_not_ready now td t hpaus hready
        by_cases hdel : td = false ∧ t.repeat_count = 0
        · rw [if_pos hdel] at hex
          obtain ⟨htd, _⟩ := hdel
          subst htd
          have hno := os_timer_handler_pass_no_i i now rest true hrest_ne
          refine Or.inl ⟨?_, ?_⟩
          · simp only [os_timer_handler_pass, hex]
            simp only [Option.isNone_none, Bool.or_true, Bool.and_false,
              Bool.false_and, Bool.false_eq_true, if_false, Option.toList_none,
              List.nil_append]
            simpa using hno.1
          · simp only [os_timer_handler_pass, hex]
            simp only [Option.isNone_none, Bool.or_true, Bool.and_false,
              Bool.false_and, Bool.false_eq_true, if_false, Option.toList_none,
              List.nil_append]
            intro u hu he
            exact absurd he (hno.2 u hu)
        · rw [if_neg hdel] at hex
          have hno := os_timer_handler_pass_no_i i now rest td hrest_ne
          refine Or.inl ⟨?_, ?_⟩
          · simp only [os_timer_handler_pass, hex]
            simp only [Option.isNone_some, Bool.or_false, Bool.false_and,
              Bool.false_eq_true, if_false, Option.toList_some, List.singleton_append]
            simpa using hno.1
          · simp only [os_timer_handler_pass, hex]
            simp only [Option.isNone_some, Bool.or_false, Bool.false_and,
              Bool.false_eq_true, if_false, Option.toList_some, List.singleton_append]
            intro u hu
            rcases List.mem_cons.1 hu with hu | hu
            · subst hu
              exact hinv u (List.mem_cons_self u rest)
            · intro he
              exact absurd he (hno.2 u hu)
    · -- the head is not the tracked timer
      have hfl : firesOf i (if (os_timer_exec now td t).2.2 then [(t.tid, now)] else []) = [] := by
        split
        · exact firesOf_single_ne i t.tid now hti
        · rfl
      simp only [os_timer_handler_pass]
      split
      · refine Or.inl ⟨hfl, ?_⟩
        intro u hu
        rcases List.mem_append.1 hu with hu | hu
        · intro he
          exact absurd (by rw [← he]; exact (os_timer_exec_mem_toList now td t u hu).symm) hti
        · exact hinv' u hu
      · have hrec := os_timer_handler_pass_spec i P k now cnt lw hcnt rest
          (td || (os_timer_exec now td t).2.1.isNone) hnodup' hinv'
        rcases hrec with ⟨hf, hin⟩ | ⟨hf, hlt, hsp, hin⟩
        · refine Or.inl ⟨?_, ?_⟩
          · rw [firesOf_append, hfl, hf]
            rfl
          · intro u hu
            rcases List.mem_append.1 hu with hu | hu
            · intro he
              exact absurd (by rw [← he]; exact (os_timer_exec_mem_toList now td t u hu).symm) hti
            · exact hin u hu
        · refine Or.inr ⟨?_, hlt, hsp, ?_⟩
          · rw [firesOf_append, hfl, hf]
            rfl
          · intro u hu
            rcases List.mem_append.1 hu with hu | hu
            · intro he
              exact absurd (by rw [← he]; exact (os_timer_exec_mem_toList now td t u hu).symm) hti
            · exact hin u hu

/-- Invariant of a timer list together with the global ghost fire log. -/
def timerListInv (i P k : Nat) (ts : List OsTimer) (log : List (Nat × Nat)) : Prop :=
  (ts.map OsTimer.tid).Nodup ∧
  (firesOf i log).length ≤ k ∧
  List.Chain' (fun a b => P ≤ os_tick_elaps b.2 a.2) (firesOf i log) ∧
  ∀ t ∈ ts, timerInv i P k (firesOf i log).length
    (((firesOf i log).getLast?.map Prod.snd).getD 0) t

theorem os_timer_handler_pass_inv (i P k now : Nat) (td : Bool)
    (ts : List OsTimer) (log : List (Nat × Nat))
    (h : timerListInv i P k ts log) :
    timerListInv i P k (os_timer_handler_pass now td ts).1
      (log ++ (os_timer_handler_pass now td ts).2.2) := by
  obtain ⟨hnodup, hlen, hchain, hinv⟩ := h
  have hnodup' : ((os_timer_handler_pass now td ts).1.map OsTimer.tid).Nodup :=
    (os_timer_handler_pass_tids_sublist now ts td).nodup hnodup
  rcases os_timer_handler_pass_spec i P k now (firesOf i log).length
      (((firesOf i log).getLast?.map Prod.snd).getD 0) hlen ts td hnodup hinv with
    ⟨hf, hin⟩ | ⟨hf, hlt, hsp, hin⟩
  · unfold timerListInv
    rw [firesOf_append, hf, List.append_nil]
    exact ⟨hnodup', hlen, hchain, hin⟩
  · unfold timerListInv
    rw [firesOf_append, hf]
    refine ⟨hnodup', ?_, ?_, ?_⟩
    · rw [List.length_append, List.length_singleton]
      omega
    · rw [List.chain'_append]
      refine ⟨hchain, List.chain'_singleton _, ?_⟩
      intro x hx y hy
      simp only [List.head?_cons, Option.mem_def, Option.some.injEq] at hy
      subst hy
      have hne : firesOf i log ≠ [] := by
        intro hemp
        rw [hemp] at hx
        cases hx
      have hpos : 0 < (firesOf i log).length := List.length_pos.2 hne
      have hlast : (firesOf i log).getLast? = some x := hx
      have : (((firesOf i log).getLast?.map Prod.snd).getD 0) = x.2 := by
        rw [hlast]
        rfl
      rw [← this]
      exact hsp hpos
    · rw [List.length_append, List.length_singleton, List.getLast?_concat]
      intro t ht
      have := hin t ht
      simpa using this

theorem os_timer_handler_aux_inv (i P k now : Nat) :
    ∀ (fuel : Nat) (ts : List OsTimer) (log : List (Nat × Nat)),
      timerListInv i P k ts log →
      timerListInv i P k (os_timer_handler_aux now fuel ts log).1
        (os_timer_handler_aux now fuel ts log).2
  | 0, ts, log, h => h
  | fuel + 1, ts, log, h => by
    simp only [os_timer_handler_aux]
    split
    · exact os_timer_handler_aux_inv i P k now fuel _ _
        (os_timer_handler_pass_inv i P k now false ts log h)
    · exact os_timer_handler_pass_inv i P k now false ts log h

theorem os_timer_handler_inv (i P k : Nat) (st : TimerSys)
    (h : timerListInv i P k st.timers st.fires) :
    timerListInv i P k (os_timer_handler st).timers (os_timer_handler st).fires := by
  unfold os_timer_handler
  exact os_timer_handler_aux_inv i P k st.sys_time (st.timers.length + 1)
    st.timers st.fires h

theorem runTimerOp_inv (i P k : Nat) (st : TimerSys) (op : TimerOp)
    (h : timerListInv i P k st.timers st.fires) :
    timerListInv i P k (runTimerOp st op).timers (runTimerOp st op).fires := by
  cases op with
  | tick_inc p => exact h
  | handler => exact os_timer_handler_inv i P k st h

theorem runTimerOps_inv (i P k : Nat) :
    ∀ (ops : List TimerOp) (st : TimerSys),
      timerListInv i P k st.timers st.fires →
      timerListInv i P k (runTimerOps ops st).timers (runTimerOps ops st).fires
  | [], st, h => h
  | op :: ops, st, h =>
    runTimerOps_inv i P k ops (runTimerOp st op) (runTimerOp_inv i P k st op h)

theorem os_timer_handler_pass_paused (now : Nat) :
    ∀ (ts : List OsTimer) (td : Bool) (t : OsTimer),
      t ∈ ts → t.paused = true → t ∈ (os_timer_handler_pass now td ts).1
  | [], td, t, ht, hp => absurd ht (List.not_mem_nil t)
  | u :: rest, td, t, ht, hp => by
    simp only [os_timer_handler_pass]
    rcases List.mem_cons.1 ht with he | hmem
    · have hup : u.paused = true := by rw [← he]; exact hp
      rw [os_timer_exec_paused now td u hup]
      rw [if_neg (by simp)]
      dsimp only
      simp only [Option.toList_some, List.singleton_append]
      exact he ▸ List.mem_cons_self u _
    · split
      · dsimp only
        exact List.mem_append_right _ hmem
      · dsimp only
        exact List.mem_append_right _
          (os_timer_handler_pass_paused now rest
            (td || (os_timer_exec now td u).2.1.isNone) t hmem hp)

theorem os_timer_handler_aux_paused (now : Nat) :
    ∀ (fuel : Nat) (ts : List OsTimer) (log : List (Nat × Nat)) (t : OsTimer),
      t ∈ ts → t.paused = true → t ∈ (os_timer_handler_aux now fuel ts log).1
  | 0, ts, log, t, ht, hp => ht
  | fuel + 1, ts, log, t, ht, hp => by
    simp only [os_timer_handler_aux]
    split
    · exact os_timer_handler_aux_paused now fuel _ _ t
        (os_timer_handler_pass_paused now ts false t ht hp) hp
    · exact os_timer_handler_pass_paused now ts false t ht hp

theorem runTimerOps_paused :
    ∀ (ops : List TimerOp) (st : TimerSys) (t : OsTimer),
      t ∈ st.timers → t.paused = true → t ∈ (runTimerOps ops st).timers
  | [], st, t, ht, hp => ht
  | op :: ops, st, t, ht, hp => by
    apply runTimerOps_paused ops (runTimerOp st op) t _ hp
    cases op with
    | tick_inc p => exact ht
    | handler =>
      exact os_timer_handler_aux_paused st.sys_time (st.timers.length + 1)
        st.timers st.fires t ht hp

/-- Claim C10: for every paused timer, `os_timer_exec` returns `false`
immediately, before the repeat-count deletion check — the callback does not
fire, the timer is unchanged and stays in the list; consequently a paused
timer (in particular one whose repeat count has reached 0) survives any
sequence of tick and handler calls; and a timer is deleted by
`os_timer_exec` only when it is not paused, the `timer_deleted` flag was
still clear, and its repeat count is 0 (or reaches 0 by the decrement of
this very ready invocation). -/
theorem C10_paused_timer (now : Nat) (td : Bool) (t : OsTimer) (st : TimerSys)
    (ops : List TimerOp) (hp : t.paused = true) (hmem : t ∈ st.timers) :
    os_timer_exec now td t = (false, some t, false) ∧
    t ∈ (runTimerOps ops st).timers ∧
    (∀ (td' : Bool) (u : OsTimer), (os_timer_exec now td' u).2.1 = none →
      u.paused = false ∧ td' = false ∧
        (u.repeat_count = 0 ∨ (u.repeat_count = 1 ∧ os_timer_time_remaining now u = 0))) :=
  ⟨os_timer_exec_paused now td t hp,
    runTimerOps_paused ops st t hmem hp,
    fun td' u hu => os_timer_exec_deleted now td' u hu⟩

def c10Timer : OsTimer := ⟨7, 5, 0, 0, true, true⟩

def c10Sys : TimerSys := ⟨0, [c10Timer], []⟩

def c10Ops : List TimerOp :=
  [.handler, .tick_inc 5, .handler, .tick_inc 5, .handler]

/-- Witness for C10 at a concrete paused timer with repeat count 0: it is
returned unchanged by `os_timer_exec` and survives three handler calls. -/
theorem C10_paused_timer_witness :
    (c10Timer.paused = true ∧ c10Timer ∈ c10Sys.timers) ∧
    (os_timer_exec 0 false c10Timer = (false, some c10Timer, false) ∧
      c10Timer ∈ (runTimerOps c10Ops c10Sys).timers ∧
      (∀ (td' : Bool) (u : OsTimer), (os_timer_exec 0 td' u).2.1 = none →
        u.paused = false ∧ td' = false ∧
          (u.repeat_count = 0 ∨ (u.repeat_count = 1 ∧ os_timer_time_remaining 0 u = 0)))) :=
  ⟨⟨by decide, by decide⟩,
    C10_paused_timer 0 false c10Timer c10Sys c10Ops (by decide) (by decide)⟩

/-- Claim C6: a timer of identity `i` with period `P` whose repeat count is
set to `k > 0`, in a timer list with pairwise-distinct identities and with
opaque benign callbacks, fires at most `k` times under any sequence of
`os_tick_inc` and `os_timer_handler` calls, and between consecutive fires at
ticks `w₁, w₂` the elapsed tick time `os_tick_elaps w₂ w₁` — measured from
the `last_run` recorded at the previous invocation — is at least `P`. -/
theorem C6_timer_repeat_and_spacing (i P k : Nat) (st0 : TimerSys) (ops : List TimerOp)
    (hk : 0 < k)
    (hfires : st0.fires = [])
    (hnodup : (st0.timers.map OsTimer.tid).Nodup)
    (hinit : ∀ t ∈ st0.timers, t.tid = i →
      t.period = P ∧ t.has_cb = true ∧ t.paused = false ∧ t.repeat_count = (k : Int)) :
    (firesOf i (runTimerOps ops st0).fires).length ≤ k ∧
    List.Chain' (fun a b => P ≤ os_tick_elaps b.2 a.2)
      (firesOf i (runTimerOps ops st0).fires) := by
  have hinv0 : timerListInv i P k st0.timers st0.fires := by
    rw [timerListInv, hfires]
    refine ⟨hnodup, by simp [firesOf], by simp [firesOf], ?_⟩
    intro t ht hti
    obtain ⟨h1, h2, h3, h4⟩ := hinit t ht hti
    refine ⟨h1, h2, h3, ?_, ?_⟩
    · rw [h4]
      simp [firesOf]
    · intro hc
      rw [show firesOf i [] = [] from rfl] at hc
      exact absurd hc (by simp)
  have hres := runTimerOps_inv i P k ops st0 hinv0
  exact ⟨hres.2.1, hres.2.2.1⟩

def c6Timer : OsTimer := ⟨0, 5, 0, 2, false, true⟩

def c6Sys : TimerSys := ⟨0, [c6Timer], []⟩

def c6Ops : List TimerOp :=
  [.handler, .tick_inc 5, .handler, .tick_inc 3, .handler, .tick_inc 2, .handler,
    .tick_inc 5, .handler]

/-- Witness for C6 at a concrete timer with period 5 and repeat count 2,
driven through five handler calls under an irregular tick sequence. -/
theorem C6_timer_repeat_and_spacing_witness :
    ((0 : Nat) < 2 ∧ c6Sys.fires = [] ∧ (c6Sys.timers.map OsTimer.tid).Nodup ∧
      (∀ t ∈ c6Sys.timers, t.tid = 0 →
        t.period = 5 ∧ t.has_cb = true ∧ t.paused = false ∧
          t.repeat_count = ((2 : Nat) : Int))) ∧
    ((firesOf 0 (runTimerOps c6Ops c6Sys).fires).length ≤ 2 ∧
      List.Chain' (fun a b => 5 ≤ os_tick_elaps b.2 a.2)
        (firesOf 0 (runTimerOps c6Ops c6Sys).fires)) :=
  ⟨⟨by decide, by decide, by decide, by decide⟩,
    C6_timer_repeat_and_spacing 0 5 2 c6Sys c6Ops (by decide) (by decide) (by decide)
      (by decide)⟩

/-!  Byte-granular memory model for `os_memcpy` (os_mem.c).  Memory is an
association list of byte writes, newest first; unwritten bytes read 0, and
reads are taken mod 256 because cells are `uint8_t`. -/

abbrev BMem := List (Nat × Nat)

def bread (m : BMem) (a : Nat) : Nat :=
  match m with
  | [] => 0
  | (x, v) :: rest => if x = a then v % 256 else bread rest a

def bwrite (m : BMem) (a v : Nat) : BMem :=
  (a, v) :: m

/-- `COPY8`: `*d8 = *s8` (the pointer increments are tracked by the callers). -/
def COPY8 (m : BMem) (d s : Nat) : BMem :=
  bwrite m d (bread m s)

/-- A little-endian `uint32_t` load, composed of four byte reads. -/
def read32 (m : BMem) (a : Nat) : Nat :=
  bread m a + 256 * bread m (a + 1) + 65536 * bread m (a + 2) +
    16777216 * bread m (a + 3)

/-- A little-endian `uint32_t` store, decomposed into four byte writes. -/
def write32 (m : BMem) (a w : Nat) : BMem :=
  bwrite (bwrite (bwrite (bwrite m a w) (a + 1) (w / 256)) (a + 2) (w / 65536))
    (a + 3) (w / 16777216)

/-- `COPY32`: `*d32 = *s32`. -/
def COPY32 (m : BMem) (d s : Nat) : BMem :=
  write32 m d (read32 m s)

/-- `n` consecutive `COPY8` steps with both pointers advancing: this is the
trailing `while(len) { COPY8; len--; }` loop and also one unrolled
`REPEAT8`-block body. -/
def copyN (m : BMem) (d s : Nat) : Nat → BMem
  | 0 => m
  | j + 1 => copyN (COPY8 m d s) (d + 1) (s + 1) j

/-- `w` consecutive `COPY32` steps: one unrolled `REPEAT8(COPY32)` body when
`w = 8`. -/
def copyW (m : BMem) (d s : Nat) : Nat → BMem
  | 0 => m
  | j + 1 => copyW (COPY32 m d s) (d + 4) (s + 4) j

/-- The mismatched-alignment `while(len > 32)` loop: each iteration performs
32 `COPY8` steps and subtracts 32.  The fuel (instantiated with `len`) makes
the recursion structural; the loop body runs only while `32 < len`. -/
def copy8_blocks (m : BMem) (d s len : Nat) : Nat → BMem × Nat × Nat × Nat
  | 0 => (m, d, s, len)
  | fuel + 1 =>
    if 32 < len then copy8_blocks (copyN m d s 32) (d + 32) (s + 32) (len - 32) fuel
    else (m, d, s, len)

/-- The destination pre-alignment loop `while(d_align && len) { COPY8; d_align--;
len--; }`, structural on the `d_align` down-counter. -/
def copy8_align (m : BMem) (d s len : Nat) : Nat → BMem × Nat × Nat × Nat
  | 0 => (m, d, s, len)
  | c + 1 =>
    if len = 0 then (m, d, s, len)
    else copy8_align (COPY8 m d s) (d + 1) (s + 1) (len - 1) c

/-- The aligned `while(len > 32)` loop: each iteration is `REPEAT8(COPY32)`
(32 bytes). -/
def copy32_blocks (m : BMem) (d s len : Nat) : Nat → BMem × Nat × Nat × Nat
  | 0 => (m, d, s, len)
  | fuel + 1 =>
    if 32 < len then copy32_blocks (copyW m d s 8) (d + 32) (s + 32) (len - 32) fuel
    else (m, d, s, len)

/-- The `while(len > 4) { COPY32; len -= 4; }` loop (note the strict
comparison: a residue of exactly 4 bytes is left to the byte loop). -/
def copy32_words (m : BMem) (d s len : Nat) : Nat → BMem × Nat × Nat × Nat
  | 0 => (m, d, s, len)
  | fuel + 1 =>
    if 4 < len then copy32_words (COPY32 m d s) (d + 4) (s + 4) (len - 4) fuel
    else (m, d, s, len)

/-- `os_memcpy(dst, src, len)` from os_mem.c.  `d_align`/`s_align` are the
low two address bits (`& ALIGN_MASK` with `ALIGN_MASK = 0x3`, i.e. `% 4`).
If they differ, everything is copied by the byte loops; otherwise the
destination is first advanced to a 4-byte boundary (`ALIGN_MASK + 1 - d_align`
byte steps, cut short if `len` runs out), then the word loops run, and the
remainder is copied bytewise.  Returns the new memory and `dst`. -/
def os_memcpy (m : BMem) (dst src len : Nat) : BMem × Nat :=
  let d_align := dst % 4
  let s_align := src % 4
  if s_align ≠ d_align then
    let r := copy8_blocks m dst src len len
    (copyN r.1 r.2.1 r.2.2.1 r.2.2.2, dst)
  else
    let r0 := if d_align ≠ 0 then copy8_align m dst src len (4 - d_align)
      else (m, dst, src, len)
    let r1 := copy32_blocks r0.1 r0.2.1 r0.2.2.1 r0.2.2.2 r0.2.2.2
    let r2 := copy32_words r1.1 r1.2.1 r1.2.2.1 r1.2.2.2 r1.2.2.2
    (copyN r2.1 r2.2.1 r2.2.2.1 r2.2.2.2, dst)

/-- The specification-side copy, taken from the spec's words: a naive
byte-by-byte copy, afterwards `d[0..n)` equals the original `s[0..n)`. -/
def spec_byte_copy (m : BMem) (d s : Nat) : Nat → BMem
  | 0 => m
  | n + 1 => bwrite (spec_byte_copy m d s n) (d + n) (bread m (s + n))

/-- `m'` is `m` with `[d, d+n)` overwritten by `m`'s original bytes at
`[s, s+n)` and everything else untouched. -/
def copied (m m' : BMem) (d s n : Nat) : Prop :=
  ∀ x, bread m' x =
    if d ≤ x ∧ x < d + n then bread m (s + (x - d)) else bread m x

theorem bread_lt (m : BMem) (a : Nat) : bread m a < 256 := by
  induction m with
  | nil => exact Nat.zero_lt_succ _
  | cons p rest ih =>
    rw [bread]
    split
    · exact Nat.mod_lt _ (by omega)
    · exact ih

theorem bread_bwrite (m : BMem) (a v x : Nat) :
    bread (bwrite m a v) x = if a = x then v % 256 else bread m x := rfl

theorem bread_COPY8 (m : BMem) (d s x : Nat) :
    bread (COPY8 m d s) x = if d = x then bread m s else bread m x := by
  unfold COPY8
  rw [bread_bwrite]
  split
  · exact Nat.mod_eq_of_lt (bread_lt m s)
  · rfl

theorem copied_COPY8 (m : BMem) (d s : Nat) : copied m (COPY8 m d s) d s 1 := by
  intro x
  rw [bread_COPY8]
  by_cases h : d = x
  · rw [if_pos h, if_pos (by omega)]
    subst h
    rw [Nat.sub_self, Nat.add_zero]
  · rw [if_neg h, if_neg (by omega)]

theorem bread_COPY32 (m : BMem) (d s x : Nat) :
    bread (COPY32 m d s) x =
      if d ≤ x ∧ x < d + 4 then bread m (s + (x - d)) else bread m x := by
  have h0 := bread_lt m s
  have h1 := bread_lt m (s + 1)
  have h2 := bread_lt m (s + 2)
  have h3 := bread_lt m (s + 3)
  show bread (bwrite (bwrite (bwrite (bwrite m d (read32 m s)) (d + 1)
      (read32 m s / 256)) (d + 2) (read32 m s / 65536)) (d + 3)
      (read32 m s / 16777216)) x = _
  rw [bread_bwrite, bread_bwrite, bread_bwrite, bread_bwrite]
  unfold read32
  by_cases e3 : d + 3 = x
  · rw [if_pos e3, if_pos (by omega)]
    rw [show s + (x - d) = s + 3 by omega]
    omega
  · rw [if_neg e3]
    by_cases e2 : d + 2 = x
    · rw [if_pos e2, if_pos (by omega)]
      rw [show s + (x - d) = s + 2 by omega]
      omega
    · rw [if_neg e2]
      by_cases e1 : d + 1 = x
      · rw [if_pos e1, if_pos (by omega)]
        rw [show s + (x - d) = s + 1 by omega]
        omega
      · rw [if_neg e1]
        by_cases e0 : d = x
        · rw [if_pos e0, if_pos (by omega)]
          rw [show s + (x - d) = s by omega]
          omega
        · rw [if_neg e0, if_neg (by omega)]

theorem copied_COPY32 (m : BMem) (d s : Nat) : copied m (COPY32 m d s) d s 4 :=
  fun x => bread_COPY32 m d s x

theorem copied_zero (m : BMem) (d s : Nat) : copied m m d s 0 := by
  intro x
  rw [if_neg (by omega)]

theorem copied_comp (m m1 m2 : BMem) (d s j l : Nat)
    (hno : d + (j + l) ≤ s ∨ s + (j + l) ≤ d)
    (h1 : copied m m1 d s j) (h2 : copied m1 m2 (d + j) (s + j) l) :
    copied m m2 d s (j + l) := by
  intro x
  rw [h2 x]
  by_cases hx2 : d + j ≤ x ∧ x < d + j + l
  · rw [if_pos hx2, if_pos (by omega)]
    rw [h1 (s + j + (x - (d + j)))]
    rw [if_neg (by omega)]
    congr 1
    omega
  · rw [if_neg hx2, h1 x]
    by_cases hx1 : d ≤ x ∧ x < d + j
    · rw [if_pos hx1, if_pos (by omega)]
    · rw [if_neg hx1, if_neg (by omega)]

theorem copyN_spec : ∀ (n : Nat) (m : BMem) (d s : Nat),
    (d + n ≤ s ∨ s + n ≤ d) → copied m (copyN m d s n) d s n
  | 0, m, d, s, h => copied_zero m d s
  | n + 1, m, d, s, h => by
    rw [copyN]
    have hstep : copied m (COPY8 m d s) d s 1 := copied_COPY8 m d s
    have hrec : copied (COPY8 m d s) (copyN (COPY8 m d s) (d + 1) (s + 1) n)
        (d + 1) (s + 1) n := by
      apply copyN_spec n
      omega
    have := copied_comp m (COPY8 m d s) _ d s 1 n (by omega) hstep hrec
    rw [show (1 : Nat) + n = n + 1 by omega] at this
    exact this

theorem copyW_spec : ∀ (w : Nat) (m : BMem) (d s : Nat),
    (d + 4 * w ≤ s ∨ s + 4 * w ≤ d) → copied m (copyW m d s w) d s (4 * w)
  | 0, m, d, s, h => by
    rw [show 4 * 0 = 0 by omega]
    exact copied_zero m d s
  | w + 1, m, d, s, h => by
    rw [copyW]
    have hstep : copied m (COPY32 m d s) d s 4 := copied_COPY32 m d s
    have hrec : copied (COPY32 m d s) (copyW (COPY32 m d s) (d + 4) (s + 4) w)
        (d + 4) (s + 4) (4 * w) := by
      apply copyW_spec w
      omega
    have := copied_comp m (COPY32 m d s) _ d s 4 (4 * w) (by omega) hstep hrec
    rw [show (4 : Nat) + 4 * w = 4 * (w + 1) by omega] at this
    exact this

theorem copy8_blocks_spec : ∀ (fuel : Nat) (m : BMem) (d s len : Nat),
    len ≤ fuel → (d + len ≤ s ∨ s + len ≤ d) →
    ∃ j, j + (copy8_blocks m d s len fuel).2.2.2 = len ∧
      (copy8_blocks m d s len fuel).2.2.2 ≤ 32 ∧
      (copy8_blocks m d s len fuel).2.1 = d + j ∧
      (copy8_blocks m d s len fuel).2.2.1 = s + j ∧
      copied m (copy8_blocks m d s len fuel).1 d s j
  | 0, m, d, s, len, hf, hno =>
    ⟨0, by show 0 + len = len; omega, by show len ≤ 32; omega,
      by show d = d + 0; omega, by show s = s + 0; omega, copied_zero m d s⟩
  | fuel + 1, m, d, s, len, hf, hno => by
    rw [copy8_blocks]
    by_cases hlen : 32 < len
    · rw [if_pos hlen]
      have hstep : copied m (copyN m d s 32) d s 32 := copyN_spec 32 m d s (by omega)
      obtain ⟨j, hj1, hj2, hj3, hj4, hj5⟩ := copy8_blocks_spec fuel (copyN m d s 32)
        (d + 32) (s + 32) (len - 32) (by omega) (by omega)
      refine ⟨32 + j, by omega, hj2, by rw [hj3]; omega, by rw [hj4]; omega, ?_⟩
      exact copied_comp m (copyN m d s 32) _ d s 32 j (by omega) hstep hj5
    · rw [if_neg hlen]
      refine ⟨0, ?_, ?_, ?_, ?_, copied_zero m d s⟩
      · show 0 + len = len
        omega
      · show len ≤ 32
        omega
      · show d = d + 0
        omega
      · show s = s + 0
        omega

theorem copy32_blocks_spec : ∀ (fuel : Nat) (m : BMem) (d s len : Nat),
    len ≤ fuel → (d + len ≤ s ∨ s + len ≤ d) →
    ∃ j, j + (copy32_blocks m d s len fuel).2.2.2 = len ∧
      (copy32_blocks m d s len fuel).2.2.2 ≤ 32 ∧
      (copy32_blocks m d s len fuel).2.1 = d + j ∧
      (copy32_blocks m d s len fuel).2.2.1 = s + j ∧
      copied m (copy32_blocks m d s len fuel).1 d s j
  | 0, m, d, s, len, hf, hno =>
    ⟨0, by show 0 + len = len; omega, by show len ≤ 32; omega,
      by show d = d + 0; omega, by show s = s + 0; omega, copied_zero m d s⟩
  | fuel + 1, m, d, s, len, hf, hno => by
    rw [copy32_blocks]
    by_cases hlen : 32 < len
    · rw [if_pos hlen]
      have hstep : copied m (copyW m d s 8) d s 32 := by
        have := copyW_spec 8 m d s (by omega)
        rw [show 4 * 8 = 32 by omega] at this
        exact this
      obtain ⟨j, hj1, hj2, hj3, hj4, hj5⟩ := copy32_blocks_spec fuel (copyW m d s 8)
        (d + 32) (s + 32) (len - 32) (by omega) (by omega)
      refine ⟨32 + j, by omega, hj2, by rw [hj3]; omega, by rw [hj4]; omega, ?_⟩
      exact copied_comp m (copyW m d s 8) _ d s 32 j (by omega) hstep hj5
    · rw [if_neg hlen]
      refine ⟨0, ?_, ?_, ?_, ?_, copied_zero m d s⟩
      · show 0 + len = len
        omega
      · show len ≤ 32
        omega
      · show d = d + 0
        omega
      · show s = s + 0
        omega

theorem copy32_words_spec : ∀ (fuel : Nat) (m : BMem) (d s len : Nat),
    len ≤ fuel → (d + len ≤ s ∨ s + len ≤ d) →
    ∃ j, j + (copy32_words m d s len fuel).2.2.2 = len ∧
      (copy32_words m d s len fuel).2.2.2 ≤ 4 ∧
      (copy32_words m d s len fuel).2.1 = d + j ∧
      (copy32_words m d s len fuel).2.2.1 = s + j ∧
      copied m (copy32_words m d s len fuel).1 d s j
  | 0, m, d, s, len, hf, hno =>
    ⟨0, by show 0 + len = len; omega, by show len ≤ 4; omega,
      by show d = d + 0; omega, by show s = s + 0; omega, copied_zero m d s⟩
  | fuel + 1, m, d, s, len, hf, hno => by
    rw [copy32_words]
    by_cases hlen : 4 < len
    · rw [if_pos hlen]
      have hstep : copied m (COPY32 m d s) d s 4 := copied_COPY32 m d s
      obtain ⟨j, hj1, hj2, hj3, hj4, hj5⟩ := copy32_words_spec fuel (COPY32 m d s)
        (d + 4) (s + 4) (len - 4) (by omega) (by omega)
      refine ⟨4 + j, by omega, hj2, by rw [hj3]; omega, by rw [hj4]; omega, ?_⟩
      exact copied_comp m (COPY32 m d s) _ d s 4 j (by omega) hstep hj5
    · rw [if_neg hlen]
      refine ⟨0, ?_, ?_, ?_, ?_, copied_zero m d s⟩
      · show 0 + len = len
        omega
      · show len ≤ 4
        omega
      · show d = d + 0
        omega
      · show s = s + 0
        omega

theorem copy8_align_spec : ∀ (c : Nat) (m : BMem) (d s len : Nat),
    (d + len ≤ s ∨ s + len ≤ d) →
    ∃ j, j + (copy8_align m d s len c).2.2.2 = len ∧
      (copy8_align m d s len c).2.1 = d + j ∧
      (copy8_align m d s len c).2.2.1 = s + j ∧
      copied m (copy8_align m d s len c).1 d s j
  | 0, m, d, s, len, hno =>
    ⟨0, by show 0 + len = len; omega, by show d = d + 0; omega,
      by show s = s + 0; omega, copied_zero m d s⟩
  | c + 1, m, d, s, len, hno => by
    rw [copy8_align]
    by_cases hlen : len = 0
    · rw [if_pos hlen]
      refine ⟨0, ?_, ?_, ?_, copied_zero m d s⟩
      · show 0 + len = len
        omega
      · show d = d + 0
        omega
      · show s = s + 0
        omega
    · rw [if_neg hlen]
      have hstep : copied m (COPY8 m d s) d s 1 := copied_COPY8 m d s
      obtain ⟨j, hj1, hj2, hj3, hj4⟩ := copy8_align_spec c (COPY8 m d s)
        (d + 1) (s + 1) (len - 1) (by omega)
      refine ⟨1 + j, by omega, by rw [hj2]; omega, by rw [hj3]; omega, ?_⟩
      exact copied_comp m (COPY8 m d s) _ d s 1 j (by omega) hstep hj4

theorem copied_step (m m1 m2 : BMem) (dst src len j l d1 s1 : Nat)
    (hno : dst + len ≤ src ∨ src + len ≤ dst)
    (hjl : j + l ≤ len)
    (hd1 : d1 = dst + j) (hs1 : s1 = src + j)
    (h1 : copied m m1 dst src j) (h2 : copied m1 m2 d1 s1 l) :
    copied m m2 dst src (j + l) := by
  subst hd1
  subst hs1
  exact copied_comp m m1 m2 dst src j l (by omega) h1 h2

theorem os_memcpy_copied (m : BMem) (dst src len : Nat)
    (hno : dst + len ≤ src ∨ src + len ≤ dst) :
    copied m (os_memcpy m dst src len).1 dst src len := by
  simp only [os_memcpy]
  by_cases halign : src % 4 ≠ dst % 4
  · rw [if_pos halign]
    obtain ⟨j1, hj1, _, hr1, hr2, hc1⟩ :=
      copy8_blocks_spec len m dst src len (le_refl len) hno
    rw [hr1, hr2]
    have hc2 := copyN_spec (copy8_blocks m dst src len len).2.2.2
      (copy8_blocks m dst src len len).1 (dst + j1) (src + j1) (by omega)
    have hfin := copied_comp m (copy8_blocks m dst src len len).1 _ dst src j1
      (copy8_blocks m dst src len len).2.2.2 (by omega) hc1 hc2
    rw [hj1] at hfin
    exact hfin
  · rw [if_neg halign]
    set R0 := (if dst % 4 ≠ 0 then copy8_align m dst src len (4 - dst % 4)
      else (m, dst, src, len)) with hR0
    have h0 : ∃ j0, j0 + R0.2.2.2 = len ∧ R0.2.1 = dst + j0 ∧
        R0.2.2.1 = src + j0 ∧ copied m R0.1 dst src j0 := by
      rw [hR0]
      by_cases hd : dst % 4 ≠ 0
      · rw [if_pos hd]
        exact copy8_align_spec (4 - dst % 4) m dst src len hno
      · rw [if_neg hd]
        exact ⟨0, by show 0 + len = len; omega, by show dst = dst + 0; omega,
          by show src = src + 0; omega, copied_zero m dst src⟩
    obtain ⟨j0, e0, a0, b0, c0⟩ := h0
    obtain ⟨j1, e1, _, a1, b1, c1⟩ := copy32_blocks_spec R0.2.2.2 R0.1 R0.2.1
      R0.2.2.1 R0.2.2.2 (le_refl _) (by omega)
    have hcomp1 : copied m (copy32_blocks R0.1 R0.2.1 R0.2.2.1 R0.2.2.2 R0.2.2.2).1
        dst src (j0 + j1) :=
      copied_step m R0.1 _ dst src len j0 j1 R0.2.1 R0.2.2.1 hno (by omega) a0 b0 c0 c1
    obtain ⟨j2, e2, _, a2, b2, c2⟩ := copy32_words_spec
      (copy32_blocks R0.1 R0.2.1 R0.2.2.1 R0.2.2.2 R0.2.2.2).2.2.2
      (copy32_blocks R0.1 R0.2.1 R0.2.2.1 R0.2.2.2 R0.2.2.2).1
      (copy32_blocks R0.1 R0.2.1 R0.2.2.1 R0.2.2.2 R0.2.2.2).2.1
      (copy32_blocks R0.1 R0.2.1 R0.2.2.1 R0.2.2.2 R0.2.2.2).2.2.1
      (copy32_blocks R0.1 R0.2.1 R0.2.2.1 R0.2.2.2 R0.2.2.2).2.2.2
      (le_refl _) (by omega)
    have hcomp2 : copied m (copy32_words
        (copy32_blocks R0.1 R0.2.1 R0.2.2.1 R0.2.2.2 R0.2.2.2).1
        (copy32_blocks R0.1 R0.2.1 R0.2.2.1 R0.2.2.2 R0.2.2.2).2.1
        (copy32_blocks R0.1 R0.2.1 R0.2.2.1 R0.2.2.2 R0.2.2.2).2.2.1
        (copy32_blocks R0.1 R0.2.1 R0.2.2.1 R0.2.2.2 R0.2.2.2).2.2.2
        (copy32_blocks R0.1 R0.2.1 R0.2.2.1 R0.2.2.2 R0.2.2.2).2.2.2).1
        dst src (j0 + j1 + j2) :=
      copied_step m _ _ dst src len (j0 + j1) j2 _ _ hno (by omega) (by omega)
        (by omega) hcomp1 c2
    have hc3 := copyN_spec
      (copy32_words (copy32_blocks R0.1 R0.2.1 R0.2.2.1 R0.2.2.2 R0.2.2.2).1
        (copy32_blocks R0.1 R0.2.1 R0.2.2.1 R0.2.2.2 R0.2.2.2).2.1
        (copy32_blocks R0.1 R0.2.1 R0.2.2.1 R0.2.2.2 R0.2.2.2).2.2.1
        (copy32_blocks R0.1 R0.2.1 R0.2.2.1 R0.2.2.2 R0.2.2.2).2.2.2
        (copy32_blocks R0.1 R0.2.1 R0.2.2.1 R0.2.2.2 R0.2.2.2).2.2.2).2.2.2
      (copy32_words (copy32_blocks R0.1 R0.2.1 R0.2.2.1 R0.2.2.2 R0.2.2.2).1
        (copy32_blocks R0.1 R0.2.1 R0.2.2.1 R0.2.2.2 R0.2.2.2).2.1
        (copy32_blocks R0.1 R0.2.1 R0.2.2.1 R0.2.2.2 R0.2.2.2).2.2.1
        (copy32_blocks R0.1 R0.2.1 R0.2.2.1 R0.2.2.2 R0.2.2.2).2.2.2
        (copy32_blocks R0.1 R0.2.1 R0.2.2.1 R0.2.2.2 R0.2.2.2).2.2.2).1
      (copy32_words (copy32_blocks R0.1 R0.2.1 R0.2.2.1 R0.2.2.2 R0.2.2.2).1
        (copy32_blocks R0.1 R0.2.1 R0.2.2.1 R0.2.2.2 R0.2.2.2).2.1
        (copy32_blocks R0.1 R0.2.1 R0.2.2.1 R0.2.2.2 R0.2.2.2).2.2.1
        (copy32_blocks R0.1 R0.2.1 R0.2.2.1 R0.2.2.2 R0.2.2.2).2.2.2
        (copy32_blocks R0.1 R0.2.1 R0.2.2.1 R0.2.2.2 R0.2.2.2).2.2.2).2.1
      (copy32_words (copy32_blocks R0.1 R0.2.1 R0.2.2.1 R0.2.2.2 R0.2.2.2).1
        (copy32_blocks R0.1 R0.2.1 R0.2.2.1 R0.2.2.2 R0.2.2.2).2.1
        (copy32_blocks R0.1 R0.2.1 R0.2.2.1 R0.2.2.2 R0.2.2.2).2.2.1
        (copy32_blocks R0.1 R0.2.1 R0.2.2.1 R0.2.2.2 R0.2.2.2).2.2.2
        (copy32_blocks R0.1 R0.2.1 R0.2.2.1 R0.2.2.2 R0.2.2.2).2.2.2).2.2.1
      (by omega)
    have hfin := copied_step m _ _ dst src len (j0 + j1 + j2) _ _ _ hno
      (by omega) (by omega) (by omega) hcomp2 hc3
    rw [show j0 + j1 + j2 +
      (copy32_words (copy32_blocks R0.1 R0.2.1 R0.2.2.1 R0.2.2.2 R0.2.2.2).1
        (copy32_blocks R0.1 R0.2.1 R0.2.2.1 R0.2.2.2 R0.2.2.2).2.1
        (copy32_blocks R0.1 R0.2.1 R0.2.2.1 R0.2.2.2 R0.2.2.2).2.2.1
        (copy32_blocks R0.1 R0.2.1 R0.2.2.1 R0.2.2.2 R0.2.2.2).2.2.2
        (copy32_blocks R0.1 R0.2.1 R0.2.2.1 R0.2.2.2 R0.2.2.2).2.2.2).2.2.2 = len
      from by omega] at hfin
    exact hfin

theorem spec_byte_copy_copied : ∀ (n : Nat) (m : BMem) (d s : Nat),
    copied m (spec_byte_copy m d s n) d s n
  | 0, m, d, s => copied_zero m d s
  | n + 1, m, d, s => by
    intro x
    rw [spec_byte_copy, bread_bwrite]
    by_cases hx : d + n = x
    · rw [if_pos hx, if_pos (show d ≤ x ∧ x < d + (n + 1) from by omega)]
      rw [show s + (x - d) = s + n from by omega]
      exact Nat.mod_eq_of_lt (bread_lt m (s + n))
    · rw [if_neg hx, spec_byte_copy_copied n m d s x]
      by_cases hin : d ≤ x ∧ x < d + n
      · rw [if_pos hin, if_pos (show d ≤ x ∧ x < d + (n + 1) from by omega)]
      · rw [if_neg hin, if_neg (show ¬ (d ≤ x ∧ x < d + (n + 1)) from by omega)]

/-- Claim C9: for non-overlapping buffers, every length, and every
combination of byte alignments, `os_memcpy(dst, src, len)` is observationally
equivalent to the naive byte-by-byte copy `spec_byte_copy`: it returns `dst`,
afterwards the bytes `dst[0..len)` equal the original `src[0..len)`, no byte
outside `dst[0..len)` changes, and every byte of the result agrees with the
spec copy — covering all three paths (mismatched-alignment byte loops,
destination pre-alignment, unrolled 32-bit word loops with byte remainder). -/
theorem C9_memcpy_equiv (m : BMem) (dst src len : Nat)
    (hno : dst + len ≤ src ∨ src + len ≤ dst) :
    (os_memcpy m dst src len).2 = dst ∧
    (∀ j, j < len → bread (os_memcpy m dst src len).1 (dst + j) = bread m (src + j)) ∧
    (∀ a, a < dst ∨ dst + len ≤ a → bread (os_memcpy m dst src len).1 a = bread m a) ∧
    (∀ a, bread (os_memcpy m dst src len).1 a = bread (spec_byte_copy m dst src len) a) := by
  have hcop := os_memcpy_copied m dst src len hno
  have hspec := spec_byte_copy_copied len m dst src
  refine ⟨?_, ?_, ?_, ?_⟩
  · simp only [os_memcpy]
    split <;> rfl
  · intro j hj
    rw [hcop (dst + j), if_pos (by omega)]
    congr 1
    omega
  · intro a ha
    rw [hcop a, if_neg (by omega)]
  · intro a
    rw [hcop a, hspec a]

def c9Mem : BMem := (List.range 40).map (fun j => (100 + j, 3 * j + 7))

/-- Witness for C9: a concrete 13-byte copy between an unaligned source at
100 and a destination at 201 of different alignment. -/
theorem C9_memcpy_equiv_witness :
    ((201 : Nat) + 13 ≤ 100 ∨ (100 : Nat) + 13 ≤ 201) ∧
    ((os_memcpy c9Mem 201 100 13).2 = 201 ∧
      (∀ j, j < 13 → bread (os_memcpy c9Mem 201 100 13).1 (201 + j) = bread c9Mem (100 + j)) ∧
      (∀ a, a < 201 ∨ 201 + 13 ≤ a → bread (os_memcpy c9Mem 201 100 13).1 a = bread c9Mem a) ∧
      (∀ a, bread (os_memcpy c9Mem 201 100 13).1 a = bread (spec_byte_copy c9Mem 201 100 13) a)) :=
  ⟨by decide, C9_memcpy_equiv c9Mem 201 100 13 (by decide)⟩
